import Mathlib

/-!
Verification of the `ics_calendar_utils` event-normalization and ICS-serialization
library.  The Python sources (`event_processor.py`, `ics_generator.py`) are shallowly
embedded below: record values are strings or `None`, records are insertion-ordered
association lists (Python dicts), regular-expression operations are modelled by
explicit scanners with the same matching semantics, and `datetime.strptime` is
modelled per directive following CPython's `_strptime` patterns.
-/

namespace ICSUtils

/-- Scalar values stored in event records: either a Python string or `None`.
The library only ever stores strings or `None` in the record fields the claims
touch, so richer Python values are out of the modelled state space. -/
inductive Val where
  | str (s : String)
  | null
deriving DecidableEq, Repr

/-- An event record: a Python dict as an insertion-ordered association list. -/
abbrev EvRec := List (String × Val)

/-- Dict lookup (`raw_event[k]` / `raw_event.get(k)`), keys are unique in a dict. -/
def lookupRec : EvRec → String → Option Val
  | [], _ => none
  | (k2, v) :: rest, k => if k2 = k then some v else lookupRec rest k

/-- Dict assignment `d[k] = v`: overwrite in place, else append (insertion order). -/
def dictSet : EvRec → String → Val → EvRec
  | [], k, v => [(k, v)]
  | (k2, v2) :: rest, k, v =>
    if k2 = k then (k, v) :: rest else (k2, v2) :: dictSet rest k v

/-- Python `d.get(k, default)`: the stored value (even `None`) when the key is
present, the default otherwise. -/
def rawGet (r : EvRec) (k : String) (dflt : Val) : Val :=
  match lookupRec r k with
  | some v => v
  | none => dflt

/-! Character classes, following Python `re` on ASCII input. -/

/-- ASCII decimal digit (`\d`). -/
def isDigitC (c : Char) : Bool := '0' ≤ c && c ≤ '9'

/-- ASCII whitespace (`\s`). -/
def isSpaceC (c : Char) : Bool :=
  c = ' ' || c = '\t' || c = '\n' || c = '\r' || c = '\x0b' || c = '\x0c'

/-- Word character (`\w`, used for `\b` word boundaries). -/
def isWordC (c : Char) : Bool := c.isAlphanum || c = '_'

/-- ASCII lowercase letter (`[a-z]`). -/
def isLowerAZ (c : Char) : Bool := 'a' ≤ c && c ≤ 'z'

/-- ASCII letter (`[a-zA-Z]`). -/
def isAlphaC (c : Char) : Bool := isLowerAZ c || ('A' ≤ c && c ≤ 'Z')

/-- ASCII lowercasing of one character (`str.lower` on the ASCII inputs used here). -/
def asciiLower (c : Char) : Char :=
  if 'A' ≤ c && c ≤ 'Z' then Char.ofNat (c.toNat + 32) else c

/-- Lowercase a character list. -/
def lowerL (l : List Char) : List Char := l.map asciiLower

/-- Python `str.lower()`. -/
def pyLower (s : String) : String := ⟨lowerL s.data⟩

/-- Left-to-right non-overlapping substring replacement, fuel-driven
(`str.replace(pat, rep)`; `pat` is always nonempty at call sites). -/
def replaceSubAux (pat rep : List Char) : Nat → List Char → List Char
  | 0, s => s
  | _ + 1, [] => []
  | fuel + 1, c :: rest =>
    if pat.isPrefixOf (c :: rest) then
      rep ++ replaceSubAux pat rep fuel (List.drop (pat.length - 1) rest)
    else
      c :: replaceSubAux pat rep fuel rest

/-- Python `s.replace(pat, rep)` on character lists. -/
def replaceSub (pat rep s : List Char) : List Char := replaceSubAux pat rep s.length s

/-- Python `s.replace(pat, rep)` on strings. -/
def pyReplace (s pat rep : String) : String := ⟨replaceSub pat.data rep.data s.data⟩

/-- Python `str.strip()`: drop leading and trailing whitespace. -/
def stripL (l : List Char) : List Char :=
  ((l.dropWhile isSpaceC).reverse.dropWhile isSpaceC).reverse

/-- Substring containment, Python `pat in s` (with nonempty `pat`). -/
def containsSub (pat : List Char) : List Char → Bool
  | [] => pat.isEmpty
  | c :: rest => pat.isPrefixOf (c :: rest) || containsSub pat rest

/-- Python `s.split(c)` for a one-character separator. -/
def splitOnChar (c : Char) : List Char → List (List Char)
  | [] => [[]]
  | x :: rest =>
    let r := splitOnChar c rest
    if x = c then [] :: r
    else
      match r with
      | h :: t => (x :: h) :: t
      | [] => [[x]]

/-- Numeric value of a digit list (most significant first). -/
def natOfDigits (l : List Char) : Nat :=
  l.foldl (fun a c => a * 10 + (c.toNat - 48)) 0

/-- Python `int(s)`: optional surrounding whitespace, optional sign, digits. -/
def pyInt (l : List Char) : Option Int :=
  let t := stripL l
  match t with
  | [] => none
  | '-' :: ds => if ds ≠ [] && ds.all isDigitC then some (-(natOfDigits ds : Int)) else none
  | '+' :: ds => if ds ≠ [] && ds.all isDigitC then some (natOfDigits ds : Int) else none
  | ds => if ds.all isDigitC then some (natOfDigits ds : Int) else none

/-- Decimal digit character of `n % 10`. -/
def digitChar (n : Nat) : Char := Char.ofNat (48 + n % 10)

/-- Two-digit zero-padded rendering (`%02d` for `0 ≤ n ≤ 99`). -/
def pad2 (n : Nat) : String := ⟨[digitChar (n / 10), digitChar n]⟩

/-- Four-digit zero-padded rendering (`%04d`-style year field, `0 ≤ n ≤ 9999`). -/
def pad4 (n : Nat) : String :=
  ⟨[digitChar (n / 1000), digitChar (n / 100), digitChar (n / 10), digitChar n]⟩

/-- Decimal digits of `n`, fuel-driven. -/
def natToStrAux : Nat → Nat → List Char
  | 0, _ => []
  | fuel + 1, n => if n < 10 then [digitChar n] else natToStrAux fuel (n / 10) ++ [digitChar n]

/-- Decimal rendering of a natural number (Python `str(n)` / f-string interpolation). -/
def natToStr (n : Nat) : String := ⟨natToStrAux (n + 1) n⟩

/-- Python `sep.join(parts)`. -/
def joinSep (sep : String) : List String → String
  | [] => ""
  | [x] => x
  | x :: xs => x ++ sep ++ joinSep sep xs

/-! Model of `re.findall(r"\b\d{1,2}(?::\d{2})?\s*(?:am|pm)?\b", time_str)`.
Each optional part is enumerated in the regex engine's greedy backtracking
order and the first alternative that satisfies the trailing word boundary wins. -/

/-- Greedy alternatives for `\d{1,2}`: two digits first, then one. -/
def digitsTry : List Char → List (List Char × List Char)
  | [] => []
  | [d1] => if isDigitC d1 then [([d1], [])] else []
  | d1 :: d2 :: rest =>
    if isDigitC d1 then
      (if isDigitC d2 then [([d1, d2], rest)] else []) ++ [([d1], d2 :: rest)]
    else []

/-- Greedy alternatives for `(?::\d{2})?`: with the colon group first, then without. -/
def colonTry (l : List Char) : List (List Char × List Char) :=
  match l with
  | ':' :: d1 :: d2 :: rest =>
    if isDigitC d1 && isDigitC d2 then [([':', d1, d2], rest), ([], l)] else [([], l)]
  | _ => [([], l)]

/-- Greedy alternatives for `\s*`: longest whitespace prefix first, down to zero. -/
def spacesTry (l : List Char) : List (List Char × List Char) :=
  let run := (l.takeWhile isSpaceC).length
  (List.range (run + 1)).reverse.map fun k => (l.take k, l.drop k)

/-- Alternatives for `(?:am|pm)?` in regex order: `am`, `pm`, then empty. -/
def ampmTry (l : List Char) : List (List Char × List Char) :=
  (if ['a', 'm'].isPrefixOf l then [(['a', 'm'], l.drop 2)] else []) ++
  (if ['p', 'm'].isPrefixOf l then [(['p', 'm'], l.drop 2)] else []) ++
  [([], l)]

/-- Word boundary `\b` after a nonempty match ending in `lastC`, before `rest`. -/
def boundaryAfter (lastC : Char) (rest : List Char) : Bool :=
  match rest with
  | [] => isWordC lastC
  | c :: _ => isWordC lastC != isWordC c

/-- Attempt the time-token regex at the current position (`prev` is the character
before it, for the leading `\b`); returns the matched token and the rest. -/
def tryMatchTime (prev : Option Char) (l : List Char) : Option (List Char × List Char) :=
  if (match prev with | none => true | some p => !isWordC p) then
    ((digitsTry l).flatMap fun p1 =>
      (colonTry p1.2).flatMap fun p2 =>
        (spacesTry p2.2).flatMap fun p3 =>
          (ampmTry p3.2).filterMap fun p4 =>
            let tok := p1.1 ++ p2.1 ++ p3.1 ++ p4.1
            match tok.getLast? with
            | some lastC => if boundaryAfter lastC p4.2 then some (tok, p4.2) else none
            | none => none).head?
  else none

/-- Scan for all non-overlapping matches, left to right, fuel-driven. -/
def findallTimeAux : Nat → Option Char → List Char → List (List Char)
  | 0, _, _ => []
  | _ + 1, _, [] => []
  | fuel + 1, prev, c :: rest =>
    match tryMatchTime prev (c :: rest) with
    | some (tok, r) => tok :: findallTimeAux fuel tok.getLast? r
    | none => findallTimeAux fuel (some c) rest

/-- All candidate time tokens of a string (`re.findall` on the time pattern). -/
def findTimePatterns (l : List Char) : List (List Char) := findallTimeAux l.length none l

/-- Meridian marker. -/
inductive Meridian where
  | am
  | pm
deriving DecidableEq, Repr

/-- Scan of `re.sub(r"\s*\(tbc\)", "", s)`: a match is a maximal whitespace run
immediately followed by the literal `(tbc)`. -/
def stripTbcAux : Nat → List Char → List Char
  | 0, s => s
  | _ + 1, [] => []
  | fuel + 1, c :: rest =>
    let run := ((c :: rest).takeWhile isSpaceC).length
    let after := (c :: rest).drop run
    if ['(', 't', 'b', 'c', ')'].isPrefixOf after then
      stripTbcAux fuel (after.drop 5)
    else
      c :: stripTbcAux fuel rest

/-- The preprocessing pipeline of `normalize_time` before token extraction:
lowercase, `noon` to `12:00pm`, strip `(tbc)`, `.` to `:`, ` and ` to ` & `. -/
def preprocessTime (s : String) : List Char :=
  let t := lowerL s.data
  let t := replaceSub "noon".data "12:00pm".data t
  let t := stripTbcAux t.length t
  let t := replaceSub ['.'] [':'] t
  let t := replaceSub " and ".data " & ".data t
  t

/-- One candidate token parsed into normalized `HH:MM`, modelling
`parse_single_time(time_part, shared_meridian)`. -/
def parseSingleTime (tok : List Char) (shared : Option Meridian) : Option String :=
  let tp0 := stripL (lowerL tok)
  let mtp : Option Meridian × List Char :=
    if containsSub ['p', 'm'] tp0 then (some Meridian.pm, stripL (replaceSub ['p', 'm'] [] tp0))
    else if containsSub ['a', 'm'] tp0 then (some Meridian.am, stripL (replaceSub ['a', 'm'] [] tp0))
    else (shared, tp0)
  let mer := mtp.1
  let tp := mtp.2
  let hm : Option (Int × Int) :=
    if containsSub [':'] tp then
      match splitOnChar ':' tp with
      | [hs, ms] =>
        match pyInt hs, pyInt ms with
        | some h, some m => some (h, m)
        | _, _ => none
      | _ => none
    else
      match pyInt tp with
      | some h => some (h, 0)
      | none => none
  match hm with
  | none => none
  | some (h0, m) =>
    let h : Int :=
      if mer = some Meridian.pm ∧ h0 ≠ 12 then h0 + 12
      else if mer = some Meridian.am ∧ h0 = 12 then 0
      else h0
    if 0 ≤ h ∧ h ≤ 23 ∧ 0 ≤ m ∧ m ≤ 59 then
      some (pad2 h.toNat ++ ":" ++ pad2 m.toNat)
    else none

/-- Scan a reversed token list for the first explicit meridian marker
(the source checks `"am"` before `"pm"` in this loop). -/
def lastMerScan : List (List Char) → Option Meridian
  | [] => none
  | t :: rest =>
    if containsSub ['a', 'm'] t then some Meridian.am
    else if containsSub ['p', 'm'] t then some Meridian.pm
    else lastMerScan rest

/-- Shared meridian: last explicit `am`/`pm` marker among the candidate tokens. -/
def lastMeridianOf (tps : List (List Char)) : Option Meridian := lastMerScan tps.reverse

/-- Lexicographic comparison of code-point sequences (Python string order). -/
def natListLe : List Nat → List Nat → Bool
  | [], _ => true
  | _ :: _, [] => false
  | a :: as, b :: bs => if a < b then true else if b < a then false else natListLe as bs

/-- Python `a <= b` on strings: lexicographic by code point. -/
def strLeB (a b : String) : Bool := natListLe (a.data.map Char.toNat) (b.data.map Char.toNat)

/-- Insert into a sorted list under a boolean comparison. -/
def orderedInsertB (le : α → α → Bool) (a : α) : List α → List α
  | [] => [a]
  | b :: l => if le a b then a :: b :: l else b :: orderedInsertB le a l

/-- Insertion sort under a boolean comparison (model of Python `sorted`, which
returns an ascending reordering). -/
def insertionSortB (le : α → α → Bool) : List α → List α
  | [] => []
  | a :: l => orderedInsertB le a (insertionSortB le l)

/-- Sort a list of strings (Python `sorted` on `HH:MM` strings). -/
def sortStrings (l : List String) : List String := insertionSortB strLeB l

/-- Model of `EventProcessor.normalize_time`: the normalized earliest time and
the diagnostics appended to the instance error log during the call.  A `None`
argument in Python behaves like the empty string here (both are falsy). -/
def normalizeTime (timeStr : String) : Option String × List String :=
  if timeStr = "" ∨ pyLower timeStr = "tbc" then (none, [])
  else
    let t := preprocessTime timeStr
    let tps := findTimePatterns t
    if tps = [] then
      (none, ["No valid time patterns found in: \x27" ++ String.mk t ++ "\x27"])
    else
      let shared := lastMeridianOf tps
      let converted := tps.filterMap fun tp => parseSingleTime tp shared
      ((sortStrings converted).head?, [])

/-! Model of `normalize_date_range`: the regex cleanup passes and the ordered
`datetime.strptime` format list. -/

/-- Day-name and weekend tokens removed by the first cleanup regex, in the
alternation order of the source pattern. -/
def dayNameAlts : List (List Char) :=
  ["mon", "tue", "wed", "thu", "fri", "sat", "sun", "monday", "tuesday", "wednesday",
   "thursday", "friday", "saturday", "sunday", "weekend", "wknd"].map String.data

/-- First alternative that is a prefix of `l` and ends at a word boundary. -/
def pickDayNameAlt : List (List Char) → List Char → Option (List Char × List Char)
  | [], _ => none
  | n :: ns, l =>
    let r := l.drop n.length
    if n.isPrefixOf l && (match r with | [] => true | c :: _ => !isWordC c) then
      some (n, r)
    else pickDayNameAlt ns l

/-- Scan of `re.sub(r"\b(mon|...|wknd)\b", "", s)`, fuel-driven; `prev` carries the
character before the current position for the leading word boundary. -/
def removeDayNamesAux : Nat → Option Char → List Char → List Char
  | 0, _, s => s
  | _ + 1, _, [] => []
  | fuel + 1, prev, c :: rest =>
    let boundaryBefore := match prev with | none => true | some p => !isWordC p
    match (if boundaryBefore then pickDayNameAlt dayNameAlts (c :: rest) else none) with
    | some (name, r) => removeDayNamesAux fuel name.getLast? r
    | none => c :: removeDayNamesAux fuel (some c) rest

/-- Day-name removal pass. -/
def removeDayNames (l : List Char) : List Char := removeDayNamesAux l.length none l

/-- Ordinal suffixes `st|nd|rd|th` (mutually exclusive by first character). -/
def pickOrdinalSuffix (l : List Char) : Option (List Char) :=
  if ['s', 't'].isPrefixOf l then some (l.drop 2)
  else if ['n', 'd'].isPrefixOf l then some (l.drop 2)
  else if ['r', 'd'].isPrefixOf l then some (l.drop 2)
  else if ['t', 'h'].isPrefixOf l then some (l.drop 2)
  else none

/-- Scan of `re.sub(r"(\d+)(st|nd|rd|th)", r"\1", s)`: a maximal digit run
followed by an ordinal suffix keeps the digits and drops the suffix. -/
def removeOrdinalsAux : Nat → List Char → List Char
  | 0, s => s
  | _ + 1, [] => []
  | fuel + 1, c :: rest =>
    let run := (c :: rest).takeWhile isDigitC
    if run.isEmpty then c :: removeOrdinalsAux fuel rest
    else
      match pickOrdinalSuffix ((c :: rest).drop run.length) with
      | some r => run ++ removeOrdinalsAux fuel r
      | none => c :: removeOrdinalsAux fuel rest

/-- Ordinal-suffix removal pass. -/
def removeOrdinals (l : List Char) : List Char := removeOrdinalsAux l.length l

/-- Greedy alternatives for `\s+`: whitespace runs, longest first, at least one. -/
def spacesPlusTry (l : List Char) : List (List Char × List Char) :=
  let run := (l.takeWhile isSpaceC).length
  ((List.range run).reverse.map fun k => (l.take (k + 1), l.drop (k + 1)))

/-- Greedy alternatives for a character-class `+` repetition, longest run first. -/
def classPlusTry (p : Char → Bool) (l : List Char) : List (List Char × List Char) :=
  let run := (l.takeWhile p).length
  ((List.range run).reverse.map fun k => (l.take (k + 1), l.drop (k + 1)))

/-- Greedy alternatives for `\d{2,4}`: four digits first, then three, then two. -/
def digits24Try (l : List Char) : List (List Char × List Char) :=
  [4, 3, 2].filterMap fun k =>
    let pre := l.take k
    if pre.length = k && pre.all isDigitC then some (pre, l.drop k) else none

/-- Exactly `k` digits. -/
def digitsExactTry (k : Nat) (l : List Char) : List (List Char × List Char) :=
  let pre := l.take k
  if pre.length = k && pre.all isDigitC then [(pre, l.drop k)] else []

/-- First full backtracking match of
`(\d{1,2})\s*/\s*\d{1,2}(\s+[a-zA-Z]+\s+\d{2,4})` at the current position,
returning the replacement `\1\2` and the rest of the input. -/
def matchRangeAt (l : List Char) : Option (List Char × List Char) :=
  ((digitsTry l).flatMap fun g1 =>
    (spacesTry g1.2).flatMap fun s1 =>
      (match s1.2 with
       | '/' :: r3 =>
         (spacesTry r3).flatMap fun s2 =>
           (digitsTry s2.2).flatMap fun d2 =>
             (spacesPlusTry d2.2).flatMap fun w1 =>
               (classPlusTry isAlphaC w1.2).flatMap fun ls =>
                 (spacesPlusTry ls.2).flatMap fun w2 =>
                   (digits24Try w2.2).map fun ys =>
                     (g1.1 ++ w1.1 ++ ls.1 ++ w2.1 ++ ys.1, ys.2)
       | _ => [])).head?

/-- Scan of the day-range collapsing `re.sub`, fuel-driven. -/
def rangeCollapseAux : Nat → List Char → List Char
  | 0, s => s
  | _ + 1, [] => []
  | fuel + 1, c :: rest =>
    match matchRangeAt (c :: rest) with
    | some (rep, r) => rep ++ rangeCollapseAux fuel r
    | none => c :: rangeCollapseAux fuel rest

/-- Day-range collapsing pass (`16/17 May 2025` becomes `16 May 2025`). -/
def rangeCollapse (l : List Char) : List Char := rangeCollapseAux l.length l

/-- Anchored match of `re.match(r"([a-z]+)\s+(\d{1,2}),\s+(\d{4})", s)`,
returning the month-word, day and year groups (the rest of the string is
discarded by the rewrite, exactly as in the source). -/
def commaFormMatch (l : List Char) : Option (List Char × List Char × List Char) :=
  ((classPlusTry isLowerAZ l).flatMap fun g1 =>
    (spacesPlusTry g1.2).flatMap fun w1 =>
      (digitsTry w1.2).flatMap fun g2 =>
        (match g2.2 with
         | ',' :: r4 =>
           (spacesPlusTry r4).flatMap fun w2 =>
             (digitsExactTry 4 w2.2).map fun g3 => (g1.1, g2.1, g3.1)
         | _ => [])).head?

/-- Scan of `re.sub(r"\s+", " ", s)`: each whitespace run becomes one space. -/
def collapseSpacesAux : Nat → List Char → List Char
  | 0, s => s
  | _ + 1, [] => []
  | fuel + 1, c :: rest =>
    if isSpaceC c then
      ' ' :: collapseSpacesAux fuel ((c :: rest).dropWhile isSpaceC)
    else
      c :: collapseSpacesAux fuel rest

/-- Whitespace-collapsing pass. -/
def collapseSpaces (l : List Char) : List Char := collapseSpacesAux l.length l

/-! Proleptic Gregorian calendar, as implemented by Python `datetime.date`
(years 1 to 9999). -/

/-- Gregorian leap-year test. -/
def isLeap (y : Nat) : Bool := (y % 4 = 0 && y % 100 ≠ 0) || y % 400 = 0

/-- Year, month and day of a calendar date. -/
structure Date where
  y : Nat
  m : Nat
  d : Nat
deriving DecidableEq, Repr

/-- Days in a month of a given year. -/
def daysInMonth (y m : Nat) : Nat :=
  match m with
  | 2 => if isLeap y then 29 else 28
  | 4 => 30
  | 6 => 30
  | 9 => 30
  | 11 => 30
  | _ => 31

/-- Days before the start of month `m` in a non-leap year. -/
def daysBeforeMonthNL (m : Nat) : Nat :=
  match m with
  | 1 => 0
  | 2 => 31
  | 3 => 59
  | 4 => 90
  | 5 => 120
  | 6 => 151
  | 7 => 181
  | 8 => 212
  | 9 => 243
  | 10 => 273
  | 11 => 304
  | 12 => 334
  | _ => 365

/-- Days before the start of month `m` of year `y`. -/
def daysBeforeMonth (y m : Nat) : Nat :=
  daysBeforeMonthNL m + (if isLeap y && 3 ≤ m then 1 else 0)

/-- Validity of a date within Python's `datetime.date` range. -/
def validDateB (dt : Date) : Bool :=
  1 ≤ dt.y && dt.y ≤ 9999 && 1 ≤ dt.m && dt.m ≤ 12 && 1 ≤ dt.d && dt.d ≤ daysInMonth dt.y dt.m

/-- Leap days among years `1, ..., n`. -/
def leapCount (n : Nat) : Nat := n / 4 + n / 400 - n / 100

/-- Ordinal day number of a valid date (day 1 is 0001-01-01), the measure used
to state that derived dates are genuinely one day or two hours later. -/
def dayNumber (dt : Date) : Nat :=
  365 * (dt.y - 1) + leapCount (dt.y - 1) + daysBeforeMonth dt.y dt.m + dt.d

/-- Successor date under `timedelta(days=1)`; `none` is the `OverflowError` past
9999-12-31. -/
def nextDate (dt : Date) : Option Date :=
  if dt.d < daysInMonth dt.y dt.m then some ⟨dt.y, dt.m, dt.d + 1⟩
  else if dt.m < 12 then some ⟨dt.y, dt.m + 1, 1⟩
  else if dt.y < 9999 then some ⟨dt.y + 1, 1, 1⟩
  else none

/-- Iterated successor (`timedelta(days=n)`). -/
def addDays : Date → Nat → Option Date
  | dt, 0 => some dt
  | dt, n + 1 =>
    match nextDate dt with
    | some d2 => addDays d2 n
    | none => none

/-! Directive-level model of `datetime.strptime`, following the regular
expressions CPython's `_strptime` compiles for each directive. -/

/-- Two-character alternative of a directive pattern. -/
def seq2 (a b : Char → Bool) (l : List Char) : List (List Char × List Char) :=
  match l with
  | c1 :: c2 :: r => if a c1 && b c2 then [([c1, c2], r)] else []
  | _ => []

/-- One-character alternative of a directive pattern. -/
def seq1 (a : Char → Bool) (l : List Char) : List (List Char × List Char) :=
  match l with
  | c :: r => if a c then [([c], r)] else []
  | _ => []

/-- Digit in `[1-9]`. -/
def dig19 (c : Char) : Bool := '1' ≤ c && c ≤ '9'

/-- Directive `%d`: `3[01]|[12]\d|0[1-9]|[1-9]`. -/
def pDay (l : List Char) : List (Nat × List Char) :=
  (seq2 (· = '3') (fun c => c = '0' || c = '1') l ++
   seq2 (fun c => c = '1' || c = '2') isDigitC l ++
   seq2 (· = '0') dig19 l ++
   seq1 dig19 l).map fun p => (natOfDigits p.1, p.2)

/-- Directive `%m`: `1[0-2]|0[1-9]|[1-9]`. -/
def pMon (l : List Char) : List (Nat × List Char) :=
  (seq2 (· = '1') (fun c => c = '0' || c = '1' || c = '2') l ++
   seq2 (· = '0') dig19 l ++
   seq1 dig19 l).map fun p => (natOfDigits p.1, p.2)

/-- Directive `%H`: `2[0-3]|[0-1]\d|\d`. -/
def pHour (l : List Char) : List (Nat × List Char) :=
  (seq2 (· = '2') (fun c => '0' ≤ c && c ≤ '3') l ++
   seq2 (fun c => c = '0' || c = '1') isDigitC l ++
   seq1 isDigitC l).map fun p => (natOfDigits p.1, p.2)

/-- Directive `%M`: `[0-5]\d|\d`. -/
def pMinute (l : List Char) : List (Nat × List Char) :=
  (seq2 (fun c => '0' ≤ c && c ≤ '5') isDigitC l ++
   seq1 isDigitC l).map fun p => (natOfDigits p.1, p.2)

/-- Directive `%Y`: exactly four digits. -/
def pY4 (l : List Char) : List (Nat × List Char) :=
  (digitsExactTry 4 l).map fun p => (natOfDigits p.1, p.2)

/-- CPython two-digit-year windowing: `00-68` map into the 2000s, `69-99`
into the 1900s. -/
def strptimeWindowYear (yy : Nat) : Nat := if yy ≤ 68 then yy + 2000 else yy + 1900

/-- Directive `%y`: exactly two digits, windowed. -/
def pY2 (l : List Char) : List (Nat × List Char) :=
  (digitsExactTry 2 l).map fun p => (strptimeWindowYear (natOfDigits p.1), p.2)

/-- Full month names with their numbers, longest first as `_strptime` orders
its alternation (no name is a prefix of another, so at most one matches). -/
def monthFullNames : List (List Char × Nat) :=
  [("september", 9), ("february", 2), ("november", 11), ("december", 12),
   ("january", 1), ("october", 10), ("august", 8), ("march", 3), ("april", 4),
   ("june", 6), ("july", 7), ("may", 5)].map fun p => (String.data p.1, p.2)

/-- Abbreviated month names with their numbers. -/
def monthAbbrNames : List (List Char × Nat) :=
  [("jan", 1), ("feb", 2), ("mar", 3), ("apr", 4), ("may", 5), ("jun", 6),
   ("jul", 7), ("aug", 8), ("sep", 9), ("oct", 10), ("nov", 11), ("dec", 12)].map
    fun p => (String.data p.1, p.2)

/-- Name-alternation directive (`%B` / `%b`); the input is lowercase by the
time it is parsed, matching the case-insensitive compiled pattern. -/
def pMonthName (names : List (List Char × Nat)) (l : List Char) : List (Nat × List Char) :=
  names.filterMap fun p =>
    if p.1.isPrefixOf l then some (p.2, l.drop p.1.length) else none

/-- Three-directive format with `\s+` for the literal spaces, such as
`"%d %B %Y"`. -/
def triFormat (p1 p2 p3 : List Char → List (Nat × List Char))
    (mk : Nat → Nat → Nat → Date) (l : List Char) : List (Date × List Char) :=
  (p1 l).flatMap fun a =>
    (spacesPlusTry a.2).flatMap fun w1 =>
      (p2 w1.2).flatMap fun b =>
        (spacesPlusTry b.2).flatMap fun w2 =>
          (p3 w2.2).map fun c => (mk a.1 b.1 c.1, c.2)

/-- The dash-separated format `"%Y-%m-%d"`. -/
def dashFormat (p1 p2 p3 : List Char → List (Nat × List Char))
    (mk : Nat → Nat → Nat → Date) (l : List Char) : List (Date × List Char) :=
  (p1 l).flatMap fun a =>
    match a.2 with
    | '-' :: r2 =>
      (p2 r2).flatMap fun b =>
        match b.2 with
        | '-' :: r4 => (p3 r4).map fun c => (mk a.1 b.1 c.1, c.2)
        | _ => []
    | _ => []

/-- The ordered format-precedence list of `normalize_date_range`. -/
def strptimeFormats : List (List Char → List (Date × List Char)) :=
  [dashFormat pY4 pMon pDay (fun y m d => ⟨y, m, d⟩),
   triFormat pDay (pMonthName monthFullNames) pY4 (fun d m y => ⟨y, m, d⟩),
   triFormat pDay (pMonthName monthAbbrNames) pY4 (fun d m y => ⟨y, m, d⟩),
   triFormat pDay (pMonthName monthFullNames) pY2 (fun d m y => ⟨y, m, d⟩),
   triFormat pDay (pMonthName monthAbbrNames) pY2 (fun d m y => ⟨y, m, d⟩),
   triFormat pDay pMon pY4 (fun d m y => ⟨y, m, d⟩),
   triFormat pDay pMon pY2 (fun d m y => ⟨y, m, d⟩),
   triFormat pY4 pMon pDay (fun y m d => ⟨y, m, d⟩),
   triFormat (pMonthName monthAbbrNames) pDay pY4 (fun m d y => ⟨y, m, d⟩),
   triFormat (pMonthName monthFullNames) pDay pY4 (fun m d y => ⟨y, m, d⟩),
   triFormat pMon pDay pY4 (fun m d y => ⟨y, m, d⟩)]

/-- Try the formats in order: a format is accepted when its first backtracking
match covers the whole string and yields a constructible `datetime.date`;
otherwise the `ValueError` moves on to the next format. -/
def tryStrptimeFormats : List (List Char → List (Date × List Char)) → List Char → Option Date
  | [], _ => none
  | f :: fs, l =>
    match (f l).head? with
    | some (dt, rest) =>
      if rest = [] && validDateB dt then some dt else tryStrptimeFormats fs l
    | none => tryStrptimeFormats fs l

/-- Promotion applied after parsing: `if parsed_date.year < 2000: year += 2000`. -/
def promoteYear (y : Nat) : Nat := if y < 2000 then y + 2000 else y

/-- The complete resolution of a two-digit year: CPython windowing followed by
the source's unconditional-looking promotion. -/
def resolveTwoDigitYear (yy : Nat) : Nat := promoteYear (strptimeWindowYear yy)

/-- Year promotion applied to a parsed date. -/
def promoteDate (dt : Date) : Date := ⟨promoteYear dt.y, dt.m, dt.d⟩

/-- Rendering `date.strftime("%Y-%m-%d")`. -/
def fmtISO (dt : Date) : String := pad4 dt.y ++ "-" ++ pad2 dt.m ++ "-" ++ pad2 dt.d

/-- The cleanup chain of `normalize_date_range` before the format loop:
lowercase, day-name removal and strip, ordinal removal, day-range collapse,
comma-form rewrite (else comma removal), separators to spaces, whitespace
collapse and strip. -/
def dateCleanup (ds : String) : List Char :=
  let c0 := lowerL ds.data
  let c1 := stripL (removeDayNames c0)
  let c2 := removeOrdinals c1
  let c3 := rangeCollapse c2
  let c4 :=
    match commaFormMatch c3 with
    | some (mon, day, yr) => day ++ ' ' :: (mon ++ ' ' :: yr)
    | none => replaceSub [','] [] c3
  let c5 := replaceSub ['-'] [' '] c4
  let c6 := replaceSub ['/'] [' '] c5
  let c7 := replaceSub ['.'] [' '] c6
  stripL (collapseSpaces c7)

/-- Model of `EventProcessor.normalize_date_range`: the normalized ISO date and
the diagnostics appended to the error log.  Non-string (`None`) and empty
inputs are falsy and return nothing without logging. -/
def normalizeDateRange (v : Val) : Option String × List String :=
  match v with
  | .null => (none, [])
  | .str ds =>
    if ds = "" then (none, [])
    else
      match tryStrptimeFormats strptimeFormats (dateCleanup ds) with
      | some dt => (some (fmtISO (promoteDate dt)), [])
      | none => (none, ["Failed to parse date: \x27" ++ ds ++ "\x27"])

/-! Model of the `EventProcessor` record pipeline. -/

/-- The default field mappings seeded in `EventProcessor.__init__`, in dict
insertion order. -/
def defaultFieldMappings : List (String × String) :=
  [("fixture", "summary"), ("start_time", "dtstart_time"), ("date", "dtstart_date"),
   ("crowd", "description"), ("venue", "location"), ("end_time", "dtend_time")]

/-- Generic dict update used by `add_mapping` (overwrite in place, else append). -/
def dictSetS : List (String × String) → String → String → List (String × String)
  | [], k, v => [(k, v)]
  | (k2, v2) :: rest, k, v =>
    if k2 = k then (k, v) :: rest else (k2, v2) :: dictSetS rest k v

/-- Python `dict.update` over a list of new entries. -/
def dictUpdate (base : List (String × String)) (ms : List (String × String)) :
    List (String × String) :=
  ms.foldl (fun acc p => dictSetS acc p.1 p.2) base

/-- The mapping loop of `_process_single_event`: walk the mapping table in
order, skipping sources that are absent or `None`; a failed start-date
normalization aborts with `none`, a failed time normalization skips only that
field; other mapped values pass through unchanged.  Returns the record built so
far (or `none`) and the log entries appended along the way. -/
def processFields (raw : EvRec) : List (String × String) → EvRec → Option EvRec × List String
  | [], processed => (some processed, [])
  | (src, tgt) :: rest, processed =>
    match lookupRec raw src with
    | none => processFields raw rest processed
    | some v =>
      if v = Val.null then processFields raw rest processed
      else if tgt = "dtstart_date" then
        let nd := normalizeDateRange v
        match nd.1 with
        | none => (none, nd.2)
        | some ds =>
          let r := processFields raw rest (dictSet processed tgt (Val.str ds))
          (r.1, nd.2 ++ r.2)
      else if tgt = "dtstart_time" ∨ tgt = "dtend_time" then
        match v with
        | .null => processFields raw rest processed
        | .str s =>
          let nt := normalizeTime s
          match nt.1 with
          | none =>
            let r := processFields raw rest processed
            (r.1, nt.2 ++ r.2)
          | some ts =>
            let r := processFields raw rest (dictSet processed tgt (Val.str ts))
            (r.1, nt.2 ++ r.2)
      else
        processFields raw rest (dictSet processed tgt v)

/-- Model of `_process_single_event`: the mapping loop followed by the
`summary` fallback to the raw `fixture` value or `"Untitled Event"`. -/
def processSingleEvent (mappings : List (String × String)) (raw : EvRec) :
    Option EvRec × List String :=
  let r := processFields raw mappings []
  match r.1 with
  | none => (none, r.2)
  | some processed =>
    let finalRec :=
      if lookupRec processed "summary" = none then
        dictSet processed "summary" (rawGet raw "fixture" (Val.str "Untitled Event"))
      else processed
    (some finalRec, r.2)

/-- Model of `process_events` on a mapping table: the per-record loop.  With
record values restricted to strings and `None`, `_process_single_event` is
total, so the per-record `except` handler has nothing to catch and the output
is exactly the successfully processed records in input order. -/
def processEvents (mappings : List (String × String)) : List EvRec → List EvRec × List String
  | [] => ([], [])
  | raw :: raws =>
    let r := processSingleEvent mappings raw
    let rest := processEvents mappings raws
    (r.1.toList ++ rest.1, r.2 ++ rest.2)

/-- Instance state of an `EventProcessor`: its mapping table and error log. -/
structure EventProcessor where
  fieldMappings : List (String × String)
  errorLog : List String
deriving DecidableEq, Repr

/-- A freshly constructed `EventProcessor()`. -/
def initProcessor : EventProcessor := ⟨defaultFieldMappings, []⟩

/-- Model of `add_mapping`. -/
def addMapping (p : EventProcessor) (ms : List (String × String)) : EventProcessor :=
  { p with fieldMappings := dictUpdate p.fieldMappings ms }

/-- Model of `process_events` at the instance level: the error log is cleared
at the start of the call, so the post-state log is rebuilt from this call's
diagnostics alone. -/
def processEventsP (p : EventProcessor) (raws : List EvRec) : EventProcessor × List EvRec :=
  let r := processEvents p.fieldMappings raws
  ({ p with errorLog := r.2 }, r.1)

/-! Model of `ICSGenerator`.  The per-event `uuid4()` and the `utcnow()`
timestamps are nondeterministic inputs of the Python code and appear here as
explicit parameters (`uids`, `now`); `OverflowError` escaping from
`timedelta` arithmetic past 9999-12-31 is the `Except.error` case. -/

/-- Parse `"%Y-%m-%d"` as `datetime.strptime` does: first backtracking match,
whole-string check, then `date` construction validity. -/
def parseISODate (s : String) : Option Date :=
  match (dashFormat pY4 pMon pDay (fun y m d => ⟨y, m, d⟩) s.data).head? with
  | some (dt, rest) => if rest = [] && validDateB dt then some dt else none
  | none => none

/-- Parse `"%H:%M"` as `datetime.strptime` does. -/
def parseHM (s : String) : Option (Nat × Nat) :=
  match ((pHour s.data).flatMap fun a =>
      match a.2 with
      | ':' :: r => (pMinute r).map fun b => ((a.1, b.1), b.2)
      | _ => []).head? with
  | some (hm, rest) => if rest = [] then some hm else none
  | none => none

/-- Backtracking matches of `"%Y-%m-%d %H:%M"`. -/
def parseDateTimeData (l : List Char) : List ((Date × Nat × Nat) × List Char) :=
  (dashFormat pY4 pMon pDay (fun y m d => ⟨y, m, d⟩) l).flatMap fun a =>
    (spacesPlusTry a.2).flatMap fun w =>
      (pHour w.2).flatMap fun h =>
        match h.2 with
        | ':' :: r => (pMinute r).map fun mi => ((a.1, h.1, mi.1), mi.2)
        | _ => []

/-- Parse `f"{date_str} {time_str}"` against `"%Y-%m-%d %H:%M"`. -/
def parseDateTimeFmt (dateStr timeStr : String) : Option (Date × Nat × Nat) :=
  match (parseDateTimeData (dateStr ++ " " ++ timeStr).data).head? with
  | some (r, rest) => if rest = [] && validDateB r.1 then some r else none
  | none => none

/-- Add `hours` hours to a datetime (`dt + timedelta(hours=hours)`); `none`
is the `OverflowError` past the supported calendar range. -/
def addHoursDT (dt : Date) (h mi hours : Nat) : Option (Date × Nat × Nat) :=
  let total := h * 60 + mi + hours * 60
  (addDays dt (total / 1440)).map fun d2 => (d2, total % 1440 / 60, total % 1440 % 60)

/-- Rendering `datetime.strftime("%Y%m%dT%H%M%SZ")` with zero seconds. -/
def fmtBasic (dt : Date) (h mi : Nat) : String :=
  pad4 dt.y ++ pad2 dt.m ++ pad2 dt.d ++ "T" ++ pad2 h ++ pad2 mi ++ "00Z"

/-- Model of `_add_duration`: parse failure falls back to the render-time
`utcnow` string, overflow propagates. -/
def addDuration (dateStr timeStr : String) (hours : Nat) (fallback : String) :
    Except Unit String :=
  match parseDateTimeFmt dateStr timeStr with
  | none => .ok fallback
  | some (dt, h, mi) =>
    match addHoursDT dt h mi hours with
    | some (d2, h2, m2) => .ok (fmtBasic d2 h2 m2)
    | none => .error ()

/-- Model of `_add_day`: parse failure returns the input unchanged, overflow
propagates. -/
def addDay (dateStr : String) : Except Unit String :=
  match parseISODate dateStr with
  | none => .ok dateStr
  | some dt =>
    match nextDate dt with
    | some d2 => .ok (fmtISO d2)
    | none => .error ()

/-- Model of `_format_datetime` (pure string surgery; its `except` branch is
unreachable on strings). -/
def formatDateTime (dateStr timeStr : String) : String :=
  pyReplace dateStr "-" "" ++ "T" ++ (pyReplace timeStr ":" "" ++ "00") ++ "Z"

/-- Field read `event.get(k)`. -/
def getV (e : EvRec) (k : String) : Option Val := lookupRec e k

/-- Python truthiness of a field read: absent, `None` and `""` are falsy. -/
def truthy : Option Val → Bool
  | none => false
  | some .null => false
  | some (.str s) => s != ""

/-- String content of a field read (call sites are guarded by `truthy`). -/
def strOf : Option Val → String
  | some (.str s) => s
  | _ => ""

/-- Model of `_escape_ics_text`. -/
def escapeICSText (s : String) : String :=
  if s = "" then ""
  else
    pyReplace (pyReplace (pyReplace (pyReplace (pyReplace s "\\" "\\\\") ";" "\\;")
      "," "\\,") "\n" "\\n") "\r" ""

/-- The `DTSTART` segment of an event component. -/
def startLines (e : EvRec) : List String :=
  if truthy (getV e "dtstart_date") && truthy (getV e "dtstart_time") then
    ["DTSTART:" ++ formatDateTime (strOf (getV e "dtstart_date")) (strOf (getV e "dtstart_time"))]
  else if truthy (getV e "dtstart_date") then
    ["DTSTART;VALUE=DATE:" ++ pyReplace (strOf (getV e "dtstart_date")) "-" ""]
  else []

/-- The `DTEND` segment of an event component. -/
def endLines (e : EvRec) (now : String) : Except Unit (List String) :=
  if truthy (getV e "dtend_date") && truthy (getV e "dtend_time") then
    .ok ["DTEND:" ++ formatDateTime (strOf (getV e "dtend_date")) (strOf (getV e "dtend_time"))]
  else if truthy (getV e "dtstart_date") && !truthy (getV e "dtend_date") then
    if truthy (getV e "dtstart_time") then
      (addDuration (strOf (getV e "dtstart_date")) (strOf (getV e "dtstart_time")) 2 now).map
        fun s => ["DTEND:" ++ s]
    else
      (addDay (strOf (getV e "dtstart_date"))).map
        fun nd => ["DTEND;VALUE=DATE:" ++ pyReplace nd "-" ""]
  else .ok []

/-- An escaped optional text line (`SUMMARY` / `DESCRIPTION` / `LOCATION`). -/
def textLine (pre : String) (e : EvRec) (k : String) : List String :=
  if truthy (getV e k) then [pre ++ escapeICSText (strOf (getV e k))] else []

/-- The optional `URL` line (emitted unescaped). -/
def urlLines (e : EvRec) : List String :=
  if truthy (getV e "url") then ["URL:" ++ strOf (getV e "url")] else []

/-- The optional `CATEGORIES` line; with values restricted to strings the
`str(...)` branch of the source applies. -/
def catLines (e : EvRec) : List String :=
  if truthy (getV e "categories") then ["CATEGORIES:" ++ strOf (getV e "categories")] else []

/-- Model of `_create_event_component`. -/
def createEventComponent (uid now : String) (e : EvRec) : Except Unit (List String) :=
  match endLines e now with
  | .error u => .error u
  | .ok el =>
    .ok (["BEGIN:VEVENT", "UID:" ++ uid, "DTSTAMP:" ++ now]
      ++ startLines e ++ el
      ++ textLine "SUMMARY:" e "summary"
      ++ textLine "DESCRIPTION:" e "description"
      ++ textLine "LOCATION:" e "location"
      ++ urlLines e ++ catLines e ++ ["END:VEVENT"])

/-- Model of `_create_calendar_header`. -/
def calendarHeader (calName : String) : List String :=
  ["BEGIN:VCALENDAR", "VERSION:2.0", "PRODID:-//ICS Calendar Utils//Event Calendar//EN",
   "X-WR-CALNAME:" ++ calName, "X-WR-TIMEZONE:Europe/London", "CALSCALE:GREGORIAN",
   "METHOD:PUBLISH"]

/-- CRLF joining with the trailing CRLF of `generate_ics`. -/
def joinCRLF (lines : List String) : String := joinSep "\r\n" lines ++ "\r\n"

/-- Iteration over the event store: apply a read-only per-event function and
return the results together with the store as left behind by the call (each
record is handed back exactly as it was read; the Python loops perform no
dict writes). -/
def mapReadAux (f : Nat → EvRec → α) : Nat → List EvRec → List α × List EvRec
  | _, [] => ([], [])
  | i, e :: rest =>
    let a := f i e
    let r := mapReadAux f (i + 1) rest
    (a :: r.1, e :: r.2)

/-- Propagate the first per-event exception out of the render loop. -/
def seqExcept : List (Except Unit α) → Except Unit (List α)
  | [] => .ok []
  | .error u :: _ => .error u
  | .ok a :: rest => (seqExcept rest).map (a :: ·)

/-- Model of `generate_ics` (without the optional file write), threading the
event store. -/
def generateICSRun (calName : String) (uids : Nat → String) (now : String)
    (st : List EvRec) : Except Unit String × List EvRec :=
  let r := mapReadAux (fun i e => createEventComponent (uids i) now e) 0 st
  match seqExcept r.1 with
  | .error u => (.error u, r.2)
  | .ok lss =>
    (.ok (joinCRLF (calendarHeader calName ++ lss.flatten ++ ["END:VCALENDAR"])), r.2)

/-- The issue list collected for one record by `validate_events`. -/
def recordIssues (e : EvRec) : List String :=
  (if !truthy (getV e "summary") then ["Missing summary/title"] else [])
  ++ (if !truthy (getV e "dtstart_date") then ["Missing start date"]
      else if (parseISODate (strOf (getV e "dtstart_date"))).isNone then
        ["Invalid date format: " ++ strOf (getV e "dtstart_date")]
      else [])
  ++ (if truthy (getV e "dtstart_time") then
        if (parseHM (strOf (getV e "dtstart_time"))).isNone then
          ["Invalid time format: " ++ strOf (getV e "dtstart_time")]
        else []
      else [])

/-- The combined per-record message, with its 1-based position. -/
def recordMsg (i : Nat) (e : EvRec) : Option String :=
  let issues := recordIssues e
  if issues.isEmpty then none
  else some ("Event " ++ natToStr (i + 1) ++ ": " ++ joinSep "; " issues)

/-- Model of `validate_events`, threading the event store. -/
def validateEventsRun (st : List EvRec) : List String × List EvRec :=
  let r := mapReadAux recordMsg 0 st
  (r.1.filterMap id, r.2)

/-- The returned validation issues. -/
def validateEvents (evs : List EvRec) : List String := (validateEventsRun evs).1

/-- The statistics summary returned by `get_ics_stats`. -/
structure IcsStats where
  totalEvents : Nat
  eventsWithTime : Nat
  allDayEvents : Nat
  eventsWithLocation : Nat
  eventsWithUrl : Nat
  earliest : Option String
  latest : Option String
deriving DecidableEq, Repr

/-- The start date collected for the range computation: a truthy
`dtstart_date` that `strptime("%Y-%m-%d")` accepts. -/
def statsDateOf (e : EvRec) : Option Date :=
  if truthy (getV e "dtstart_date") then parseISODate (strOf (getV e "dtstart_date")) else none

/-- Comparison key for sorting collected dates (equals `datetime` ordering on
valid dates). -/
def dateKey (dt : Date) : Nat := (dt.y * 100 + dt.m) * 100 + dt.d

/-- Python `dates.sort()` (`datetime` ordering coincides with `dateKey` order
on the valid dates collected here). -/
def sortDates (l : List Date) : List Date :=
  insertionSortB (fun a b => decide (dateKey a ≤ dateKey b)) l

/-- Model of `get_ics_stats`, threading the event store. -/
def getIcsStatsRun (st : List EvRec) : IcsStats × List EvRec :=
  let r := mapReadAux (fun _ e =>
    (truthy (getV e "dtstart_time"), truthy (getV e "location"), truthy (getV e "url"),
      statsDateOf e)) 0 st
  let rows := r.1
  let dates := rows.filterMap fun q => q.2.2.2
  let sorted := sortDates dates
  ({ totalEvents := rows.length,
     eventsWithTime := (rows.filter fun q => q.1).length,
     allDayEvents := (rows.filter fun q => !q.1).length,
     eventsWithLocation := (rows.filter fun q => q.2.1).length,
     eventsWithUrl := (rows.filter fun q => q.2.2.1).length,
     earliest := sorted.head?.map fmtISO,
     latest := sorted.getLast?.map fmtISO }, r.2)

/-- The returned statistics. -/
def getIcsStats (evs : List EvRec) : IcsStats := (getIcsStatsRun evs).1

/-! Auxiliary definitions used only in the statements of the claims. -/

/-- Escaping step: backslash to double backslash. -/
def escBackslashes (s : String) : String := pyReplace s "\\" "\\\\"

/-- Escaping step: semicolon. -/
def escSemicolons (s : String) : String := pyReplace s ";" "\\;"

/-- Escaping step: comma. -/
def escCommas (s : String) : String := pyReplace s "," "\\,"

/-- Escaping step: newline. -/
def escNewlines (s : String) : String := pyReplace s "\n" "\\n"

/-- Escaping step: strip carriage returns. -/
def stripCarriageReturns (s : String) : String := pyReplace s "\r" ""

/-- The escaping transform in the order the specification states it:
backslashes first, then semicolons, commas, newlines, carriage returns. -/
def escapeSpecOrder (s : String) : String :=
  stripCarriageReturns (escNewlines (escCommas (escSemicolons (escBackslashes s))))

/-- The foil named by the claim: the first two escaping steps applied in the
reverse order (semicolons escaped before backslashes are doubled). -/
def escapeReverseOrder (s : String) : String :=
  stripCarriageReturns (escNewlines (escCommas (escBackslashes (escSemicolons s))))

/-- Minutes elapsed since the calendar epoch for a datetime, the measure in
which "exactly 2 hours later" is stated. -/
def minutesOfDT (dt : Date) (h mi : Nat) : Nat := 1440 * dayNumber dt + 60 * h + mi

/-- Substring containment on strings (Python `pat in s`). -/
def strContains (s pat : String) : Bool := containsSub pat.data s.data

/-! Supporting lemmas: the store-threading fold, dict operations, and the
boolean insertion sort. -/

theorem mapReadAux_snd (f : Nat → EvRec → α) : ∀ (i : Nat) (l : List EvRec),
    (mapReadAux f i l).2 = l := by
  intro i l
  induction l generalizing i with
  | nil => rfl
  | cons e rest ih => simp [mapReadAux, ih]

theorem mapReadAux_fst_const (g : EvRec → α) : ∀ (i : Nat) (l : List EvRec),
    (mapReadAux (fun _ e => g e) i l).1 = l.map g := by
  intro i l
  induction l generalizing i with
  | nil => rfl
  | cons e rest ih => simp [mapReadAux, ih]

theorem lookup_dictSet_self (r : EvRec) (k : String) (v : Val) :
    lookupRec (dictSet r k v) k = some v := by
  induction r with
  | nil => simp [dictSet, lookupRec]
  | cons p rest ih =>
    by_cases h : p.1 = k
    · simp [dictSet, h, lookupRec]
    · simp [dictSet, h, lookupRec, ih]

theorem lookup_dictSet_ne (r : EvRec) (k2 k : String) (v : Val) (h : k2 ≠ k) :
    lookupRec (dictSet r k2 v) k = lookupRec r k := by
  induction r with
  | nil => simp [dictSet, lookupRec, h]
  | cons p rest ih =>
    by_cases h2 : p.1 = k2
    · simp [dictSet, h2, lookupRec, h]
    · simp [dictSet, h2, lookupRec, ih]

theorem orderedInsertB_perm (le : α → α → Bool) (a : α) :
    ∀ l : List α, (orderedInsertB le a l).Perm (a :: l) := by
  intro l
  induction l with
  | nil => exact List.Perm.refl _
  | cons b t ih =>
    unfold orderedInsertB
    by_cases h : le a b = true
    · simp [h]
    · simp only [h, if_neg, Bool.false_eq_true, not_false_eq_true]
      exact (ih.cons b).trans (List.Perm.swap a b t)

theorem insertionSortB_perm (le : α → α → Bool) :
    ∀ l : List α, (insertionSortB le l).Perm l := by
  intro l
  induction l with
  | nil => exact List.Perm.refl _
  | cons a t ih =>
    exact (orderedInsertB_perm le a (insertionSortB le t)).trans (ih.cons a)

theorem mem_orderedInsertB (le : α → α → Bool) (a x : α) (l : List α) :
    x ∈ orderedInsertB le a l ↔ x = a ∨ x ∈ l := by
  rw [(orderedInsertB_perm le a l).mem_iff, List.mem_cons]

theorem pairwise_orderedInsertB (le : α → α → Bool)
    (tot : ∀ a b, le a b = true ∨ le b a = true)
    (tr : ∀ a b c, le a b = true → le b c = true → le a c = true) (a : α) :
    ∀ l : List α, l.Pairwise (fun x y => le x y = true) →
      (orderedInsertB le a l).Pairwise (fun x y => le x y = true) := by
  intro l
  induction l with
  | nil => intro _; simp [orderedInsertB]
  | cons b t ih =>
    intro hp
    rw [List.pairwise_cons] at hp
    unfold orderedInsertB
    by_cases h : le a b = true
    · simp only [h, if_pos]
      refine List.Pairwise.cons ?_ (List.Pairwise.cons hp.1 hp.2)
      intro x hx
      rcases List.mem_cons.mp hx with rfl | hx
      · exact h
      · exact tr a b x h (hp.1 x hx)
    · simp only [h, if_neg, Bool.false_eq_true, not_false_eq_true]
      refine List.Pairwise.cons ?_ (ih hp.2)
      intro x hx
      rcases (mem_orderedInsertB le a x t).mp hx with rfl | hx
      · rcases tot x b with h2 | h2
        · exact absurd h2 h
        · exact h2
      · exact hp.1 x hx

theorem pairwise_insertionSortB (le : α → α → Bool)
    (tot : ∀ a b, le a b = true ∨ le b a = true)
    (tr : ∀ a b c, le a b = true → le b c = true → le a c = true) :
    ∀ l : List α, (insertionSortB le l).Pairwise (fun x y => le x y = true) := by
  intro l
  induction l with
  | nil => simp [insertionSortB]
  | cons a t ih => exact pairwise_orderedInsertB le tot tr a _ ih

theorem head_min_of_pairwise {le : α → α → Bool} {l : List α}
    (h : l.Pairwise (fun x y => le x y = true)) {m : α} (hm : l.head? = some m) :
    ∀ x ∈ l, x = m ∨ le m x = true := by
  cases l with
  | nil => cases hm
  | cons a t =>
    cases hm
    intro x hx
    rcases List.mem_cons.mp hx with rfl | hx
    · exact Or.inl rfl
    · exact Or.inr ((List.pairwise_cons.mp h).1 x hx)

theorem getLast_max_of_pairwise {le : α → α → Bool} :
    ∀ {l : List α}, l.Pairwise (fun x y => le x y = true) →
      ∀ {M : α}, l.getLast? = some M → ∀ x ∈ l, x = M ∨ le x M = true := by
  intro l
  induction l with
  | nil => intro _ M hM; cases hM
  | cons a t ih =>
    intro hp M hM x hx
    cases t with
    | nil =>
      simp only [List.getLast?_singleton, Option.some.injEq] at hM
      rcases List.mem_singleton.mp hx with rfl
      exact Or.inl hM
    | cons b t2 =>
      rw [List.getLast?_cons_cons] at hM
      have hMmem : M ∈ b :: t2 := by
        have := List.getLast?_eq_getLast (b :: t2) (by simp)
        rw [this] at hM
        exact (Option.some.injEq _ _).mp hM ▸ List.getLast_mem (by simp)
      rcases List.mem_cons.mp hx with rfl | hx
      · exact Or.inr ((List.pairwise_cons.mp hp).1 M hMmem)
      · exact ih (List.pairwise_cons.mp hp).2 hM x hx

theorem natListLe_total : ∀ a b : List Nat, natListLe a b = true ∨ natListLe b a = true := by
  intro a
  induction a with
  | nil => intro b; exact Or.inl rfl
  | cons x xs ih =>
    intro b
    cases b with
    | nil => exact Or.inr rfl
    | cons y ys =>
      unfold natListLe
      rcases Nat.lt_trichotomy x y with h | h | h
      · left; simp [h]
      · subst h
        simp only [Nat.lt_irrefl, if_false]
        exact ih ys
      · right; simp [h]

theorem natListLe_trans : ∀ a b c : List Nat,
    natListLe a b = true → natListLe b c = true → natListLe a c = true := by
  intro a
  induction a with
  | nil => intro b c _ _; rfl
  | cons x xs ih =>
    intro b c hab hbc
    cases b with
    | nil => simp [natListLe] at hab
    | cons y ys =>
      cases c with
      | nil => simp [natListLe] at hbc
      | cons z zs =>
        unfold natListLe at hab hbc ⊢
        rcases Nat.lt_trichotomy x y with h1 | h1 | h1 <;>
          rcases Nat.lt_trichotomy y z with h2 | h2 | h2 <;>
            simp_all <;> try omega
        exact ih ys zs hab hbc

theorem strLeB_total (a b : String) : strLeB a b = true ∨ strLeB b a = true :=
  natListLe_total _ _

theorem strLeB_trans (a b c : String) (h1 : strLeB a b = true) (h2 : strLeB b c = true) :
    strLeB a c = true :=
  natListLe_trans _ _ _ h1 h2

theorem length_filter_add_length_filter_not (p : α → Bool) :
    ∀ l : List α, (l.filter p).length + (l.filter fun a => !p a).length = l.length := by
  intro l
  induction l with
  | nil => rfl
  | cons a t ih =>
    by_cases h : p a = true <;> simp [List.filter, h, ← ih] <;> omega

/-! Calendar lemmas: the day-number measure increases by exactly one along
`nextDate`, which grounds the "next calendar day" and "exactly 2 hours later"
statements. -/

theorem daysInMonth_pos (y m : Nat) : 1 ≤ daysInMonth y m := by
  unfold daysInMonth
  split <;> first | omega | (split <;> omega)

theorem leapCount_succ (k : Nat) :
    leapCount (k + 1) = leapCount k + (if isLeap (k + 1) then 1 else 0) := by
  by_cases h : isLeap (k + 1) = true
  · rw [if_pos h]
    unfold isLeap at h
    simp only [Bool.or_eq_true, Bool.and_eq_true, decide_eq_true_eq, bne_iff_ne, ne_eq] at h
    unfold leapCount
    omega
  · rw [if_neg h]
    unfold isLeap at h
    simp only [Bool.or_eq_true, Bool.and_eq_true, decide_eq_true_eq, bne_iff_ne, ne_eq,
      not_or, not_and, Decidable.not_not] at h
    unfold leapCount
    omega

theorem daysBeforeMonth_succ (y m : Nat) (h1 : 1 ≤ m) (h2 : m ≤ 11) :
    daysBeforeMonth y (m + 1) = daysBeforeMonth y m + daysInMonth y m := by
  interval_cases m <;>
    by_cases hL : isLeap y <;>
      simp [daysBeforeMonth, daysBeforeMonthNL, daysInMonth, hL]

theorem daysBeforeMonth_one (y : Nat) : daysBeforeMonth y 1 = 0 := by
  simp [daysBeforeMonth, daysBeforeMonthNL]

theorem daysBeforeMonth_twelve (y : Nat) :
    daysBeforeMonth y 12 = 334 + (if isLeap y = true then 1 else 0) := by
  by_cases h : isLeap y = true <;> simp [daysBeforeMonth, daysBeforeMonthNL, h]

theorem validDateB_fields {dt : Date} (h : validDateB dt = true) :
    1 ≤ dt.y ∧ dt.y ≤ 9999 ∧ 1 ≤ dt.m ∧ dt.m ≤ 12 ∧ 1 ≤ dt.d ∧ dt.d ≤ daysInMonth dt.y dt.m := by
  unfold validDateB at h
  simp only [Bool.and_eq_true, decide_eq_true_eq] at h
  omega

theorem nextDate_valid {dt dt2 : Date} (hv : validDateB dt = true)
    (h : nextDate dt = some dt2) : validDateB dt2 = true := by
  obtain ⟨y, m, d⟩ := dt
  obtain ⟨h1, h2, h3, h4, h5, h6⟩ := validDateB_fields hv
  simp only at h1 h2 h3 h4 h5 h6
  unfold nextDate at h
  simp only at h
  unfold validDateB
  split at h
  · cases h
    simp only [Bool.and_eq_true, decide_eq_true_eq]
    omega
  · split at h
    · cases h
      simp only [Bool.and_eq_true, decide_eq_true_eq]
      have := daysInMonth_pos y (m + 1)
      omega
    · split at h
      · cases h
        simp only [Bool.and_eq_true, decide_eq_true_eq]
        have := daysInMonth_pos (y + 1) 1
        omega
      · cases h

theorem dayNumber_nextDate {dt dt2 : Date} (hv : validDateB dt = true)
    (h : nextDate dt = some dt2) : dayNumber dt2 = dayNumber dt + 1 := by
  obtain ⟨y, m, d⟩ := dt
  obtain ⟨h1, h2, h3, h4, h5, h6⟩ := validDateB_fields hv
  simp only at h1 h2 h3 h4 h5 h6
  unfold nextDate at h
  simp only at h
  split at h
  · cases h
    unfold dayNumber
    simp only
    omega
  · split at h
    · cases h
      have hd : d = daysInMonth y m := by omega
      have hm : m ≤ 11 := by omega
      unfold dayNumber
      simp only
      rw [daysBeforeMonth_succ y m h3 hm]
      omega
    · split at h
      · cases h
        have hm : m = 12 := by omega
        subst hm
        have hd31 : d = 31 := by
          have hdim : daysInMonth y 12 = 31 := rfl
          omega
        subst hd31
        unfold dayNumber
        simp only [Nat.add_sub_cancel]
        rw [daysBeforeMonth_one, daysBeforeMonth_twelve]
        have hy : y - 1 + 1 = y := by omega
        have hlc := leapCount_succ (y - 1)
        rw [hy] at hlc
        by_cases hL : isLeap y = true
        · rw [if_pos hL] at hlc ⊢; omega
        · rw [if_neg hL] at hlc ⊢; omega
      · cases h

theorem addDays_dayNumber : ∀ (n : Nat) {dt d2 : Date}, validDateB dt = true →
    addDays dt n = some d2 → validDateB d2 = true ∧ dayNumber d2 = dayNumber dt + n := by
  intro n
  induction n with
  | zero =>
    intro dt d2 hv h
    cases h
    exact ⟨hv, rfl⟩
  | succ k ih =>
    intro dt d2 hv h
    unfold addDays at h
    cases hnd : nextDate dt with
    | none => rw [hnd] at h; cases h
    | some dmid =>
      rw [hnd] at h
      have hvm := nextDate_valid hv hnd
      have hdn := dayNumber_nextDate hv hnd
      obtain ⟨hv2, hd2⟩ := ih hvm h
      exact ⟨hv2, by omega⟩

theorem addHoursDT_minutes {dt d2 : Date} {h mi hrs h2 m2 : Nat}
    (hv : validDateB dt = true) (hres : addHoursDT dt h mi hrs = some (d2, h2, m2)) :
    minutesOfDT d2 h2 m2 = minutesOfDT dt h mi + hrs * 60 := by
  simp only [addHoursDT] at hres
  cases had : addDays dt ((h * 60 + mi + hrs * 60) / 1440) with
  | none => rw [had] at hres; cases hres
  | some dmid =>
    rw [had] at hres
    simp only [Option.map_some', Option.some.injEq, Prod.mk.injEq] at hres
    obtain ⟨rfl, rfl, rfl⟩ := hres
    obtain ⟨_, hdn⟩ := addDays_dayNumber _ hv had
    unfold minutesOfDT
    rw [hdn]
    omega

theorem parseISODate_valid {s : String} {dt : Date} (h : parseISODate s = some dt) :
    validDateB dt = true := by
  unfold parseISODate at h
  split at h
  · split at h
    · rename_i heq
      cases h
      simp only [Bool.and_eq_true] at heq
      exact heq.2
    · cases h
  · cases h

theorem parseDateTimeFmt_valid {ds ts : String} {dt : Date} {h mi : Nat}
    (hp : parseDateTimeFmt ds ts = some (dt, h, mi)) : validDateB dt = true := by
  unfold parseDateTimeFmt at hp
  split at hp
  · split at hp
    · rename_i heq
      cases hp
      simp only [Bool.and_eq_true] at heq
      exact heq.2
    · cases hp
  · cases hp

/-! Processor lemmas: characterizations of record dropping, field omission and
logging in `_process_single_event` / `process_events`. -/

theorem processEvents_fst (M : List (String × String)) : ∀ rs : List EvRec,
    (processEvents M rs).1 = rs.filterMap fun r => (processSingleEvent M r).1 := by
  intro rs
  induction rs with
  | nil => rfl
  | cons raw rest ih =>
    simp only [processEvents, List.filterMap_cons]
    cases h : (processSingleEvent M raw).1 with
    | none => simp [h, ih]
    | some e => simp [h, ih]

theorem processEvents_snd (M : List (String × String)) : ∀ rs : List EvRec,
    (processEvents M rs).2 = rs.flatMap fun r => (processSingleEvent M r).2 := by
  intro rs
  induction rs with
  | nil => rfl
  | cons raw rest ih => simp [processEvents, ih]

theorem processFields_none_iff (raw : EvRec) : ∀ (M : List (String × String)) (acc : EvRec),
    (processFields raw M acc).1 = none ↔
      ∃ src v, (src, "dtstart_date") ∈ M ∧ lookupRec raw src = some v ∧ v ≠ Val.null ∧
        (normalizeDateRange v).1 = none := by
  intro M
  induction M with
  | nil => intro acc; simp [processFields]
  | cons p rest ih =>
    intro acc
    obtain ⟨src, tgt⟩ := p
    have hmem : ∀ s : String, ((s, "dtstart_date") ∈ (src, tgt) :: rest ↔
        (s = src ∧ "dtstart_date" = tgt) ∨ (s, "dtstart_date") ∈ rest) := by
      intro s
      simp [List.mem_cons, Prod.ext_iff]
    have hpush : ∀ acc2 : EvRec, (¬ tgt = "dtstart_date" ∨
        (∀ v2, lookupRec raw src = some v2 → v2 = Val.null ∨ (normalizeDateRange v2).1 ≠ none)) →
        ((processFields raw rest acc2).1 = none ↔
          ∃ s w, (s, "dtstart_date") ∈ (src, tgt) :: rest ∧ lookupRec raw s = some w ∧
            w ≠ Val.null ∧ (normalizeDateRange w).1 = none) := by
      intro acc2 hside
      rw [ih]
      constructor
      · rintro ⟨s, w, hm, hlk, hnn, hnd⟩
        exact ⟨s, w, List.mem_cons_of_mem _ hm, hlk, hnn, hnd⟩
      · rintro ⟨s, w, hm, hlk, hnn, hnd⟩
        rcases ((hmem s).mp hm) with ⟨rfl, h2⟩ | hm2
        · rcases hside with hside | hside
          · exact absurd h2.symm hside
          · rcases hside w hlk with h3 | h3
            · exact absurd h3 hnn
            · exact absurd hnd h3
        · exact ⟨s, w, hm2, hlk, hnn, hnd⟩
    simp only [processFields]
    cases hl : lookupRec raw src with
    | none =>
      exact hpush acc (Or.inr fun v2 h => by rw [hl] at h; cases h)
    | some v =>
      dsimp only
      by_cases hvn : v = Val.null
      · rw [if_pos hvn]
        exact hpush acc (Or.inr fun v2 h => by rw [hl] at h; cases h; exact Or.inl hvn)
      · rw [if_neg hvn]
        by_cases htd : tgt = "dtstart_date"
        · rw [if_pos htd]
          cases hnd : (normalizeDateRange v).1 with
          | none =>
            refine iff_of_true rfl ⟨src, v, ?_, hl, hvn, hnd⟩
            rw [hmem src]
            exact Or.inl ⟨rfl, htd.symm⟩
          | some ds =>
            dsimp only
            exact hpush (dictSet acc tgt (Val.str ds)) (Or.inr fun v2 h => by
              rw [hl] at h; cases h; exact Or.inr (by rw [hnd]; exact fun hc => by cases hc))
        · rw [if_neg htd]
          by_cases htt : tgt = "dtstart_time" ∨ tgt = "dtend_time"
          · rw [if_pos htt]
            cases v with
            | null => exact absurd rfl hvn
            | str s =>
              dsimp only
              split
              · exact hpush acc (Or.inl htd)
              · exact hpush _ (Or.inl htd)
          · rw [if_neg htt]
            exact hpush (dictSet acc tgt v) (Or.inl htd)

theorem processSingleEvent_none_iff (M : List (String × String)) (raw : EvRec) :
    (processSingleEvent M raw).1 = none ↔ (processFields raw M []).1 = none := by
  unfold processSingleEvent
  cases h : (processFields raw M []).1 <;> simp [h]

theorem processFields_not_set (raw : EvRec) : ∀ (M : List (String × String)) (acc : EvRec)
    (q : EvRec) (k : String), (processFields raw M acc).1 = some q →
    lookupRec acc k = none →
    (∀ src tgt, (src, tgt) ∈ M → tgt = k → ∀ v, lookupRec raw src = some v → v ≠ Val.null →
      (k = "dtstart_time" ∨ k = "dtend_time") ∧
        ∃ s, v = Val.str s ∧ (normalizeTime s).1 = none) →
    lookupRec q k = none := by
  intro M
  induction M with
  | nil =>
    intro acc q k hq hacc _
    simp only [processFields] at hq
    cases hq
    exact hacc
  | cons p rest ih =>
    intro acc q k hq hacc hset
    obtain ⟨src, tgt⟩ := p
    have hsetRest : ∀ src2 tgt2, (src2, tgt2) ∈ rest → tgt2 = k → ∀ v,
        lookupRec raw src2 = some v → v ≠ Val.null →
        (k = "dtstart_time" ∨ k = "dtend_time") ∧
          ∃ s, v = Val.str s ∧ (normalizeTime s).1 = none := fun s2 t2 hm =>
      hset s2 t2 (List.mem_cons_of_mem _ hm)
    simp only [processFields] at hq
    cases hl : lookupRec raw src with
    | none =>
      rw [hl] at hq
      exact ih acc q k hq hacc hsetRest
    | some v =>
      rw [hl] at hq
      dsimp only at hq
      by_cases hvn : v = Val.null
      · rw [if_pos hvn] at hq
        exact ih acc q k hq hacc hsetRest
      · rw [if_neg hvn] at hq
        by_cases htd : tgt = "dtstart_date"
        · rw [if_pos htd] at hq
          cases hnd : (normalizeDateRange v).1 with
          | none => rw [hnd] at hq; cases hq
          | some ds =>
            rw [hnd] at hq
            simp only at hq
            have hkne : tgt ≠ k := by
              intro hk
              obtain ⟨hk2, -⟩ := hset src tgt (List.mem_cons_self ..) hk v hl hvn
              rw [← hk, htd] at hk2
              rcases hk2 with h2 | h2 <;> exact absurd h2 (by decide)
            refine ih _ q k hq ?_ hsetRest
            rw [lookup_dictSet_ne _ _ _ _ hkne]
            exact hacc
        · rw [if_neg htd] at hq
          by_cases htt : tgt = "dtstart_time" ∨ tgt = "dtend_time"
          · rw [if_pos htt] at hq
            cases v with
            | null => exact absurd rfl hvn
            | str s =>
              dsimp only at hq
              cases hnt : (normalizeTime s).1 with
              | none =>
                rw [hnt] at hq
                dsimp only at hq
                exact ih acc q k hq hacc hsetRest
              | some ts =>
                rw [hnt] at hq
                dsimp only at hq
                have hkne : tgt ≠ k := by
                  intro hk
                  rcases hset src tgt (List.mem_cons_self ..) hk _ hl hvn with ⟨_, s2, hs2, hnt2⟩
                  cases hs2
                  rw [hnt] at hnt2
                  cases hnt2
                refine ih _ q k hq ?_ hsetRest
                rw [lookup_dictSet_ne _ _ _ _ hkne]
                exact hacc
          · rw [if_neg htt] at hq
            have hkne : tgt ≠ k := by
              intro hk
              obtain ⟨hk2, -⟩ := hset src tgt (List.mem_cons_self ..) hk v hl hvn
              rw [← hk] at hk2
              exact htt hk2
            refine ih _ q k hq ?_ hsetRest
            rw [lookup_dictSet_ne _ _ _ _ hkne]
            exact hacc

theorem processSingleEvent_snd (M : List (String × String)) (raw : EvRec) :
    (processSingleEvent M raw).2 = (processFields raw M []).2 := by
  unfold processSingleEvent
  cases h : (processFields raw M []).1 <;> simp [h]

theorem normalizeDateRange_fail_log (s : String) (hs : s ≠ "")
    (hf : (normalizeDateRange (Val.str s)).1 = none) :
    (normalizeDateRange (Val.str s)).2 = ["Failed to parse date: \x27" ++ s ++ "\x27"] := by
  simp only [normalizeDateRange] at hf ⊢
  rw [if_neg hs] at hf ⊢
  split at hf
  · cases hf
  · rfl

theorem processFields_append_no_date (raw : EvRec) :
    ∀ (M1 M2 : List (String × String)) (acc : EvRec),
      (∀ p ∈ M1, p.2 ≠ "dtstart_date") →
      ∃ (pre : List String) (acc2 : EvRec),
        processFields raw (M1 ++ M2) acc =
          ((processFields raw M2 acc2).1, pre ++ (processFields raw M2 acc2).2) := by
  intro M1
  induction M1 with
  | nil =>
    intro M2 acc _
    exact ⟨[], acc, by simp⟩
  | cons p rest ih =>
    intro M2 acc hnd
    obtain ⟨src, tgt⟩ := p
    have htd : tgt ≠ "dtstart_date" := hnd (src, tgt) (List.mem_cons_self ..)
    have hndRest : ∀ p ∈ rest, p.2 ≠ "dtstart_date" := fun p hp =>
      hnd p (List.mem_cons_of_mem _ hp)
    rw [List.cons_append, processFields.eq_def]
    dsimp only
    cases hl : lookupRec raw src with
    | none => exact ih M2 acc hndRest
    | some v =>
      dsimp only
      by_cases hvn : v = Val.null
      · rw [if_pos hvn]
        exact ih M2 acc hndRest
      · rw [if_neg hvn, if_neg htd]
        by_cases htt : tgt = "dtstart_time" ∨ tgt = "dtend_time"
        · rw [if_pos htt]
          cases v with
          | null => exact absurd rfl hvn
          | str t =>
            dsimp only
            cases hnt : (normalizeTime t).1 with
            | none =>
              dsimp only
              obtain ⟨pre, acc2, heq⟩ := ih M2 acc hndRest
              exact ⟨(normalizeTime t).2 ++ pre, acc2, by rw [heq]; simp⟩
            | some ts =>
              dsimp only
              obtain ⟨pre, acc2, heq⟩ := ih M2 (dictSet acc tgt (Val.str ts)) hndRest
              exact ⟨(normalizeTime t).2 ++ pre, acc2, by rw [heq]; simp⟩
        · rw [if_neg htt]
          exact ih M2 (dictSet acc tgt v) hndRest

theorem processSingleEvent_date_log (raw : EvRec) (s : String)
    (hd : lookupRec raw "date" = some (Val.str s)) (hs : s ≠ "")
    (hf : (normalizeDateRange (Val.str s)).1 = none) :
    ("Failed to parse date: \x27" ++ s ++ "\x27") ∈
      (processSingleEvent defaultFieldMappings raw).2 := by
  have hmsg : "Failed to parse date: \x27" ++ s ++ "\x27" ∈ (normalizeDateRange (Val.str s)).2 := by
    rw [normalizeDateRange_fail_log s hs hf]
    exact List.mem_singleton.mpr rfl
  rw [processSingleEvent_snd]
  have hsplit : defaultFieldMappings = [("fixture", "summary"), ("start_time", "dtstart_time")] ++
      [("date", "dtstart_date"), ("crowd", "description"), ("venue", "location"),
       ("end_time", "dtend_time")] := rfl
  rw [hsplit]
  obtain ⟨pre, acc2, heq⟩ := processFields_append_no_date raw
    [("fixture", "summary"), ("start_time", "dtstart_time")]
    [("date", "dtstart_date"), ("crowd", "description"), ("venue", "location"),
     ("end_time", "dtend_time")] [] (by decide)
  rw [heq]
  have hdate : processFields raw [("date", "dtstart_date"), ("crowd", "description"),
      ("venue", "location"), ("end_time", "dtend_time")] acc2 =
      (none, (normalizeDateRange (Val.str s)).2) := by
    rw [processFields.eq_def]
    dsimp only
    rw [hd]
    dsimp only
    rw [if_neg (show ¬ (Val.str s = Val.null) by intro h; cases h)]
    rw [if_pos (show ("dtstart_date" : String) = "dtstart_date" from rfl)]
    rw [hf]
  rw [hdate]
  exact List.mem_append_right _ hmsg

theorem processSingleEvent_summary_null (raw : EvRec)
    (hfx : lookupRec raw "fixture" = some Val.null) :
    ∀ e, (processSingleEvent defaultFieldMappings raw).1 = some e →
      lookupRec e "summary" = some Val.null := by
  intro e he
  simp only [processSingleEvent] at he
  cases hpf : (processFields raw defaultFieldMappings []).1 with
  | none => rw [hpf] at he; cases he
  | some processed =>
    rw [hpf] at he
    dsimp only at he
    have hnosum : lookupRec processed "summary" = none := by
      refine processFields_not_set raw defaultFieldMappings [] processed "summary" hpf rfl ?_
      intro src tgt hm htgt v hlv hvn
      simp only [defaultFieldMappings, List.mem_cons, Prod.mk.injEq] at hm
      rcases hm with ⟨rfl, rfl⟩ | ⟨rfl, rfl⟩ | ⟨rfl, rfl⟩ | ⟨rfl, rfl⟩ | ⟨rfl, rfl⟩ | ⟨rfl, rfl⟩ | h
      · rw [hfx] at hlv
        cases hlv
        exact absurd rfl hvn
      · exact absurd htgt (by decide)
      · exact absurd htgt (by decide)
      · exact absurd htgt (by decide)
      · exact absurd htgt (by decide)
      · exact absurd htgt (by decide)
      · cases h
    rw [if_pos hnosum] at he
    cases he
    have hget : rawGet raw "fixture" (Val.str "Untitled Event") = Val.null := by
      unfold rawGet
      rw [hfx]
    rw [hget]
    exact lookup_dictSet_self ..

/-! Component-line helpers: the first character of each emitted line
discriminates the line kinds. -/

theorem head_of_append (pre x : String) {c : Char} {cs : List Char} (h : pre.data = c :: cs) :
    ((pre ++ x).data).head? = some c := by
  rw [String.data_append, h]
  rfl

theorem mem_ite_singleton {c : Prop} [Decidable c] {a x : α}
    (h : x ∈ (if c then [a] else [])) : x = a := by
  split at h
  · simpa using h
  · cases h

theorem startLines_head (e : EvRec) : ∀ x ∈ startLines e, x.data.head? = some 'D' := by
  intro x hx
  unfold startLines at hx
  split at hx
  · rw [List.mem_singleton.mp hx]
    exact head_of_append "DTSTART:" _ rfl
  · split at hx
    · rw [List.mem_singleton.mp hx]
      exact head_of_append "DTSTART;VALUE=DATE:" _ rfl
    · cases hx

theorem endLines_head (e : EvRec) (now : String) (el : List String)
    (h : endLines e now = .ok el) : ∀ x ∈ el, x.data.head? = some 'D' := by
  unfold endLines at h
  split at h
  · cases h
    intro x hx
    rw [List.mem_singleton.mp hx]
    exact head_of_append "DTEND:" _ rfl
  · split at h
    · split at h
      · cases had : addDuration (strOf (getV e "dtstart_date")) (strOf (getV e "dtstart_time"))
          2 now with
        | error u => rw [had] at h; cases h
        | ok s2 =>
          rw [had] at h
          cases h
          intro x hx
          rw [List.mem_singleton.mp hx]
          exact head_of_append "DTEND:" _ rfl
      · cases had : addDay (strOf (getV e "dtstart_date")) with
        | error u => rw [had] at h; cases h
        | ok nd =>
          rw [had] at h
          cases h
          intro x hx
          rw [List.mem_singleton.mp hx]
          exact head_of_append "DTEND;VALUE=DATE:" _ rfl
    · cases h
      intro x hx
      cases hx

theorem component_lines_heads (uid now : String) (e : EvRec) (lines : List String)
    (hok : createEventComponent uid now e = .ok lines)
    (hsum : truthy (getV e "summary") = false) :
    ∀ x ∈ lines, x.data.head? ≠ some 'S' := by
  unfold createEventComponent at hok
  cases hend : endLines e now with
  | error u => rw [hend] at hok; cases hok
  | ok el =>
    rw [hend] at hok
    cases hok
    intro x hx hS
    simp only [List.cons_append, List.nil_append, List.mem_cons, List.mem_append,
      List.mem_singleton, or_assoc] at hx
    rcases hx with rfl | rfl | rfl | hx
    · cases hS
    · rw [head_of_append "UID:" uid rfl] at hS; cases hS
    · rw [head_of_append "DTSTAMP:" now rfl] at hS; cases hS
    rcases hx with hx | hx
    · rw [startLines_head e x hx] at hS; cases hS
    rcases hx with hx | hx
    · rw [endLines_head e now el hend x hx] at hS; cases hS
    rcases hx with hx | hx
    · unfold textLine at hx
      rw [hsum] at hx
      simp at hx
    rcases hx with hx | hx
    · rw [mem_ite_singleton hx] at hS
      rw [head_of_append "DESCRIPTION:" _ rfl] at hS; cases hS
    rcases hx with hx | hx
    · rw [mem_ite_singleton hx] at hS
      rw [head_of_append "LOCATION:" _ rfl] at hS; cases hS
    rcases hx with hx | hx
    · unfold urlLines at hx
      rw [mem_ite_singleton hx] at hS
      rw [head_of_append "URL:" _ rfl] at hS; cases hS
    rcases hx with hx | rfl | hfalse
    · unfold catLines at hx
      rw [mem_ite_singleton hx] at hS
      rw [head_of_append "CATEGORIES:" _ rfl] at hS; cases hS
    · cases hS
    · cases hfalse

theorem processSingleEvent_not_set_key (raw e : EvRec) (k : String) (hk : k ≠ "summary")
    (hset : ∀ src tgt, (src, tgt) ∈ defaultFieldMappings → tgt = k → ∀ v,
      lookupRec raw src = some v → v ≠ Val.null →
      (k = "dtstart_time" ∨ k = "dtend_time") ∧
        ∃ s, v = Val.str s ∧ (normalizeTime s).1 = none)
    (he : (processSingleEvent defaultFieldMappings raw).1 = some e) :
    lookupRec e k = none := by
  simp only [processSingleEvent] at he
  cases hpf : (processFields raw defaultFieldMappings []).1 with
  | none => rw [hpf] at he; cases he
  | some processed =>
    rw [hpf] at he
    dsimp only at he
    have hnone := processFields_not_set raw defaultFieldMappings [] processed k hpf rfl hset
    by_cases hsum : lookupRec processed "summary" = none
    · rw [if_pos hsum] at he
      cases he
      rw [lookup_dictSet_ne _ _ _ _ (Ne.symm hk)]
      exact hnone
    · rw [if_neg hsum] at he
      cases he
      exact hnone

theorem recordMsg_eq_none (i : Nat) (e : EvRec) :
    recordMsg i e = none ↔ recordIssues e = [] := by
  unfold recordMsg
  by_cases h : (recordIssues e).isEmpty
  · rw [if_pos h]
    simp only [List.isEmpty_iff] at h
    simp [h]
  · rw [if_neg h]
    simp only [List.isEmpty_iff] at h
    simp [h]

theorem enumFrom_mem_iff (P : EvRec → Prop) : ∀ (i : Nat) (l : List EvRec),
    (∀ p ∈ List.enumFrom i l, P p.2) ↔ ∀ e ∈ l, P e := by
  intro i l
  induction l generalizing i with
  | nil => simp
  | cons e rest ih =>
    rw [List.enumFrom_cons]
    simp only [List.mem_cons]
    constructor
    · intro h x hx
      rcases hx with rfl | hx
      · exact h (i, x) (Or.inl rfl)
      · exact ((ih (i + 1)).mp fun p hp => h p (Or.inr hp)) x hx
    · intro h p hp
      rcases hp with rfl | hp
      · exact h e (Or.inl rfl)
      · exact ((ih (i + 1)).mpr fun x hx => h x (Or.inr hx)) p hp

theorem validate_enumFrom (l : List EvRec) : ∀ i : Nat,
    (mapReadAux recordMsg i l).1.filterMap id =
      (List.enumFrom i l).filterMap fun p => recordMsg p.1 p.2 := by
  induction l with
  | nil => intro i; rfl
  | cons e rest ih =>
    intro i
    rw [List.enumFrom_cons]
    simp only [mapReadAux, List.filterMap_cons]
    cases h : recordMsg i e with
    | none => simp [h, ih]
    | some m => simp [h, ih]

theorem recordMsg_eq_some (i : Nat) (e : EvRec) (m : String) :
    recordMsg i e = some m ↔ recordIssues e ≠ [] ∧
      m = "Event " ++ natToStr (i + 1) ++ ": " ++ joinSep "; " (recordIssues e) := by
  unfold recordMsg
  by_cases h : (recordIssues e).isEmpty
  · rw [if_pos h]
    simp only [List.isEmpty_iff] at h
    simp [h]
  · rw [if_neg h]
    simp only [List.isEmpty_iff] at h
    simp only [Option.some.injEq, ne_eq, h, not_false_iff, true_and]
    exact eq_comm

/-! Claim theorems. -/

/-- Claim C1, counterexample.  The claim states that per-record failures are
always logged; but a raw record whose mapped start-date field is the empty
string fails date normalization (the falsy check returns before any logging)
and is dropped from the batch with an empty error log: `process` on the single
record `{"date": ""}` returns no records and no diagnostics. -/
theorem claim_C1_counterexample :
    processEvents defaultFieldMappings [[("date", Val.str "")]] = ([], []) ∧
    (processSingleEvent defaultFieldMappings [("date", Val.str "")]).1 = none := by
  constructor
  · decide
  · decide

/-- Claim C1, amended.  For every list of N raw records, `process` clears the
instance error log at the start (the resulting log is independent of the prior
log) and returns between 0 and N canonical records, namely exactly the
successfully processed inputs in order with no placeholder; under the default
mappings a record is dropped exactly when its mapped start-date field is
present, non-null and fails date normalization, while a record whose mapped
start-time or end-time field fails time normalization is kept with only that
field omitted; the aggregate log is the concatenation of the per-record
diagnostics, and a record dropped for a nonempty start-date string that fails
parsing contributes a `Failed to parse date` diagnostic — but (the amendment
forced by the counterexample) a record whose start-date value is the empty
string is dropped without any log entry; processing is total, so failures
never raise to the caller. -/
theorem claim_C1 :
    (∀ (p q : EventProcessor) (raws : List EvRec), p.fieldMappings = q.fieldMappings →
      (processEventsP p raws).1.errorLog = (processEventsP q raws).1.errorLog)
    ∧ (∀ (M : List (String × String)) (raws : List EvRec),
        (processEvents M raws).1.length ≤ raws.length)
    ∧ (∀ (M : List (String × String)) (raws : List EvRec),
        (processEvents M raws).1 = raws.filterMap fun r => (processSingleEvent M r).1)
    ∧ (∀ (M : List (String × String)) (raws : List EvRec),
        (processEvents M raws).2 = raws.flatMap fun r => (processSingleEvent M r).2)
    ∧ (∀ raw : EvRec, (processSingleEvent defaultFieldMappings raw).1 = none ↔
        ∃ v, lookupRec raw "date" = some v ∧ v ≠ Val.null ∧ (normalizeDateRange v).1 = none)
    ∧ (∀ (raw : EvRec) (s : String) (e : EvRec),
        lookupRec raw "start_time" = some (Val.str s) → (normalizeTime s).1 = none →
        (processSingleEvent defaultFieldMappings raw).1 = some e →
        lookupRec e "dtstart_time" = none)
    ∧ (∀ (raw : EvRec) (s : String) (e : EvRec),
        lookupRec raw "end_time" = some (Val.str s) → (normalizeTime s).1 = none →
        (processSingleEvent defaultFieldMappings raw).1 = some e →
        lookupRec e "dtend_time" = none)
    ∧ (∀ (raw : EvRec) (s : String),
        lookupRec raw "date" = some (Val.str s) → s ≠ "" →
        (normalizeDateRange (Val.str s)).1 = none →
        ("Failed to parse date: \x27" ++ s ++ "\x27") ∈
          (processSingleEvent defaultFieldMappings raw).2) := by
  refine ⟨?_, ?_, ?_, ?_, ?_, ?_, ?_, ?_⟩
  · intro p q raws h
    simp only [processEventsP, h]
  · intro M raws
    rw [processEvents_fst]
    exact List.length_filterMap_le _ _
  · intro M raws
    exact processEvents_fst M raws
  · intro M raws
    exact processEvents_snd M raws
  · intro raw
    rw [processSingleEvent_none_iff, processFields_none_iff]
    constructor
    · rintro ⟨src, v, hm, hl, hnn, hnd⟩
      simp only [defaultFieldMappings, List.mem_cons, Prod.mk.injEq,
        List.not_mem_nil, or_false] at hm
      rcases hm with ⟨rfl, h⟩ | ⟨rfl, h⟩ | ⟨rfl, h⟩ | ⟨rfl, h⟩ | ⟨rfl, h⟩ | ⟨rfl, h⟩ <;>
        first
          | exact ⟨v, hl, hnn, hnd⟩
          | exact absurd h (by decide)
    · rintro ⟨v, hl, hnn, hnd⟩
      exact ⟨"date", v, by simp [defaultFieldMappings], hl, hnn, hnd⟩
  · intro raw s e hl hnt he
    refine processSingleEvent_not_set_key raw e "dtstart_time" (by decide) ?_ he
    intro src tgt hm htgt v hlv hvn
    simp only [defaultFieldMappings, List.mem_cons, Prod.mk.injEq,
      List.not_mem_nil, or_false] at hm
    rcases hm with ⟨rfl, rfl⟩ | ⟨rfl, rfl⟩ | ⟨rfl, rfl⟩ | ⟨rfl, rfl⟩ | ⟨rfl, rfl⟩ | ⟨rfl, rfl⟩ <;>
      first
        | exact absurd htgt (by decide)
        | (rw [hl] at hlv; cases hlv; exact ⟨Or.inl rfl, s, rfl, hnt⟩)
  · intro raw s e hl hnt he
    refine processSingleEvent_not_set_key raw e "dtend_time" (by decide) ?_ he
    intro src tgt hm htgt v hlv hvn
    simp only [defaultFieldMappings, List.mem_cons, Prod.mk.injEq,
      List.not_mem_nil, or_false] at hm
    rcases hm with ⟨rfl, rfl⟩ | ⟨rfl, rfl⟩ | ⟨rfl, rfl⟩ | ⟨rfl, rfl⟩ | ⟨rfl, rfl⟩ | ⟨rfl, rfl⟩ <;>
      first
        | exact absurd htgt (by decide)
        | (rw [hl] at hlv; cases hlv; exact ⟨Or.inr rfl, s, rfl, hnt⟩)
  · intro raw s hd hs hf
    exact processSingleEvent_date_log raw s hd hs hf

/-- Claim C1, witness: processing the single raw record `{"date": "nonsense"}`
logs the `Failed to parse date` diagnostic for the dropped record. -/
theorem claim_C1_witness :
    ("Failed to parse date: \x27" ++ "nonsense" ++ "\x27") ∈
      (processSingleEvent defaultFieldMappings [("date", Val.str "nonsense")]).2 :=
  claim_C1.2.2.2.2.2.2.2 [("date", Val.str "nonsense")] "nonsense" (by decide) (by decide)
    (by decide)

/-- Claim C3, counterexample.  The claim asserts
`normalize_date_range("16 may 23") = "2025-05-16"`; the code parses the
two-digit year 23 via the `%y` windowing into 2023 (which the later `< 2000`
promotion leaves unchanged) and returns `"2023-05-16"`. -/
theorem claim_C3_counterexample :
    (normalizeDateRange (Val.str "16 may 23")).1 ≠ some "2025-05-16" ∧
    (normalizeDateRange (Val.str "16 may 23")).1 = some "2023-05-16" := by
  constructor
  · decide
  · decide

/-- Claim C3, amended.  Two-digit years are not promoted by an unconditional
`+2000`: the underlying parser first windows them (00-68 into the 2000s, 69-99
into the 1900s) and only then does the `< 2000` promotion fire, so a two-digit
year `yy` resolves to `2000 + yy` when `yy ≤ 68` and to `3900 + yy` when
`69 ≤ yy ≤ 99`; in particular `normalize_date_range("16 may 23")` returns
`"2023-05-16"`, not `"2025-05-16"`. -/
theorem claim_C3 :
    (∀ yy : Nat, yy ≤ 99 →
      resolveTwoDigitYear yy = if yy ≤ 68 then 2000 + yy else 3900 + yy)
    ∧ (normalizeDateRange (Val.str "16 may 23")).1 = some "2023-05-16" := by
  constructor
  · intro yy h
    unfold resolveTwoDigitYear strptimeWindowYear promoteYear
    split_ifs <;> omega
  · decide

/-- Claim C3, witness: the year-resolution instances `23` (windowed into 2023)
and `70` (windowed to 1970, then promoted to 3970). -/
theorem claim_C3_witness :
    resolveTwoDigitYear 23 = (if 23 ≤ 68 then 2000 + 23 else 3900 + 23) ∧
    resolveTwoDigitYear 70 = (if 70 ≤ 68 then 2000 + 70 else 3900 + 70) :=
  ⟨claim_C3.1 23 (by omega), claim_C3.1 70 (by omega)⟩

/-- Claim C10.  For a raw record whose `fixture` key is present with a null
value (and, under the default mappings, no mapped field can then set a
summary, since the mapping loop skips null source values), single-record
processing sets the canonical summary to that null value — the fallback reads
the raw `fixture` value directly via `dict.get`, not the `"Untitled Event"`
default — and such a record renders without any `SUMMARY` line. -/
theorem claim_C10 :
    ∀ (raw e : EvRec), lookupRec raw "fixture" = some Val.null →
      (processSingleEvent defaultFieldMappings raw).1 = some e →
      lookupRec e "summary" = some Val.null ∧
      (∀ (uid now : String) (lines : List String), createEventComponent uid now e = .ok lines →
        ∀ s : String, ("SUMMARY:" ++ s) ∉ lines) := by
  intro raw e hfx he
  have hsum := processSingleEvent_summary_null raw hfx e he
  refine ⟨hsum, ?_⟩
  intro uid now lines hok s hmem
  have hheads := component_lines_heads uid now e lines hok
    (by unfold truthy getV; rw [hsum])
  exact hheads _ hmem (head_of_append "SUMMARY:" s rfl)

/-- Claim C10, witness: the record `{"fixture": None, "date": "2024-12-20"}`
processes to a record with a null summary whose rendering has no `SUMMARY`
line. -/
theorem claim_C10_witness :
    lookupRec [("dtstart_date", Val.str "2024-12-20"), ("summary", Val.null)] "summary" =
      some Val.null ∧
    ("SUMMARY:" ++ "x") ∉ ["BEGIN:VEVENT", "UID:" ++ "u", "DTSTAMP:" ++ "n",
      "DTSTART;VALUE=DATE:" ++ "20241220", "DTEND;VALUE=DATE:" ++ "20241221", "END:VEVENT"] := by
  have h := claim_C10 [("fixture", Val.null), ("date", Val.str "2024-12-20")]
    [("dtstart_date", Val.str "2024-12-20"), ("summary", Val.null)] (by decide) (by decide)
  exact ⟨h.1, h.2 "u" "n" _ rfl "x"⟩

/-- Claim C9.  The serializer operations `generate_ics`, `validate_events` and
`get_ics_stats` leave the event store unchanged: threading the record list
through each call returns it exactly as it was before (the loops only read the
record dicts and never write to them). -/
theorem claim_C9 :
    ∀ st : List EvRec,
      (∀ (calName : String) (uids : Nat → String) (now : String),
        (generateICSRun calName uids now st).2 = st)
      ∧ (validateEventsRun st).2 = st
      ∧ (getIcsStatsRun st).2 = st := by
  intro st
  refine ⟨?_, ?_, ?_⟩
  · intro calName uids now
    unfold generateICSRun
    cases h : seqExcept (mapReadAux (fun i e => createEventComponent (uids i) now e) 0 st).1 <;>
      simp [h, mapReadAux_snd]
  · unfold validateEventsRun
    simp [mapReadAux_snd]
  · unfold getIcsStatsRun
    simp [mapReadAux_snd]

/-- Claim C5.  The escaping transform applied to summary, description and
location doubles backslashes first, then escapes semicolons, commas and
newlines and strips carriage returns, in that exact order; a literal backslash
followed by a semicolon escapes to backslash-backslash-backslash-semicolon,
which differs from escaping in the reverse order; and the event component
emits exactly the escaped text for each of the three fields when present. -/
theorem claim_C5 :
    (∀ t : String, escapeICSText t = escapeSpecOrder t)
    ∧ escapeICSText ("\\" ++ ";") = "\\" ++ "\\" ++ "\\" ++ ";"
    ∧ escapeICSText ("\\" ++ ";") ≠ escapeReverseOrder ("\\" ++ ";")
    ∧ (∀ (e : EvRec) (uid now : String) (lines : List String),
        createEventComponent uid now e = .ok lines →
        (truthy (getV e "summary") = true →
          ("SUMMARY:" ++ escapeICSText (strOf (getV e "summary"))) ∈ lines)
        ∧ (truthy (getV e "description") = true →
          ("DESCRIPTION:" ++ escapeICSText (strOf (getV e "description"))) ∈ lines)
        ∧ (truthy (getV e "location") = true →
          ("LOCATION:" ++ escapeICSText (strOf (getV e "location"))) ∈ lines)) := by
  refine ⟨?_, by decide, by decide, ?_⟩
  · intro t
    by_cases h : t = ""
    · subst h
      decide
    · unfold escapeICSText escapeSpecOrder stripCarriageReturns escNewlines escCommas
        escSemicolons escBackslashes
      rw [if_neg h]
  · intro e uid now lines hok
    unfold createEventComponent at hok
    cases hend : endLines e now with
    | error u => rw [hend] at hok; cases hok
    | ok el =>
      rw [hend] at hok
      cases hok
      refine ⟨?_, ?_, ?_⟩ <;> intro ht
      · have hsu : ("SUMMARY:" ++ escapeICSText (strOf (getV e "summary"))) ∈
            textLine "SUMMARY:" e "summary" := by
          unfold textLine
          rw [if_pos ht]
          exact List.mem_singleton.mpr rfl
        simp only [List.cons_append, List.nil_append, List.mem_cons, List.mem_append]
        tauto
      · have hsu : ("DESCRIPTION:" ++ escapeICSText (strOf (getV e "description"))) ∈
            textLine "DESCRIPTION:" e "description" := by
          unfold textLine
          rw [if_pos ht]
          exact List.mem_singleton.mpr rfl
        simp only [List.cons_append, List.nil_append, List.mem_cons, List.mem_append]
        tauto
      · have hsu : ("LOCATION:" ++ escapeICSText (strOf (getV e "location"))) ∈
            textLine "LOCATION:" e "location" := by
          unfold textLine
          rw [if_pos ht]
          exact List.mem_singleton.mpr rfl
        simp only [List.cons_append, List.nil_append, List.mem_cons, List.mem_append]
        tauto

/-- Claim C5, witness: an event whose summary is a literal backslash followed
by a semicolon renders with the `SUMMARY` line carrying the escaped text. -/
theorem claim_C5_witness :
    ("SUMMARY:" ++ escapeICSText (strOf (getV [("summary", Val.str ("\\" ++ ";"))] "summary"))) ∈
      ["BEGIN:VEVENT", "UID:" ++ "u", "DTSTAMP:" ++ "n",
        "SUMMARY:" ++ ("\\" ++ "\\" ++ "\\" ++ ";"), "END:VEVENT"] :=
  (claim_C5.2.2.2 [("summary", Val.str ("\\" ++ ";"))] "u" "n" _ rfl).1 (by decide)

/-- Claim C7.  `validate` flags a record whose summary is absent or the empty
string but not one whose summary is whitespace-only (any nonempty string is
truthy); each record with at least one issue contributes exactly one message
`Event <n>: <issue>; <issue>...` with `n` its 1-based position, records
without issues contribute nothing, and the result is empty exactly when no
record has issues. -/
theorem claim_C7 :
    (∀ e : EvRec, (getV e "summary" = none ∨ getV e "summary" = some (Val.str "")) →
      "Missing summary/title" ∈ recordIssues e)
    ∧ (∀ (e : EvRec) (s : String), getV e "summary" = some (Val.str s) → s ≠ "" →
        "Missing summary/title" ∉ recordIssues e)
    ∧ (∀ l : List EvRec, validateEvents l =
        l.enum.filterMap fun p => recordMsg p.1 p.2)
    ∧ (∀ (i : Nat) (e : EvRec) (m : String), recordMsg i e = some m ↔
        recordIssues e ≠ [] ∧
          m = "Event " ++ natToStr (i + 1) ++ ": " ++ joinSep "; " (recordIssues e))
    ∧ (∀ l : List EvRec, validateEvents l = [] ↔ ∀ e ∈ l, recordIssues e = []) := by
  have hflag : ∀ e : EvRec, truthy (getV e "summary") = false →
      "Missing summary/title" ∈ recordIssues e := by
    intro e h
    unfold recordIssues
    rw [h]
    exact List.mem_append_left _ (List.mem_append_left _ (List.mem_singleton.mpr rfl))
  refine ⟨?_, ?_, ?_, recordMsg_eq_some, ?_⟩
  · intro e h
    refine hflag e ?_
    rcases h with h | h <;> rw [h] <;> rfl
  · intro e s hsum hne h
    unfold recordIssues at h
    have ht : truthy (getV e "summary") = true := by
      rw [hsum]
      simpa [truthy] using hne
    rw [ht] at h
    simp only [Bool.not_true, Bool.false_eq_true, if_false, List.nil_append,
      List.mem_append] at h
    rcases h with h | h
    · split at h
      · exact absurd (List.mem_singleton.mp h) (by decide)
      · split at h
        · have heq := List.mem_singleton.mp h
          have hhead := congrArg (fun q : String => q.data.head?) heq
          dsimp only at hhead
          rw [head_of_append "Invalid date format: " _ rfl] at hhead
          exact absurd hhead (by decide)
        · cases h
    · split at h
      · split at h
        · have heq := List.mem_singleton.mp h
          have hhead := congrArg (fun q : String => q.data.head?) heq
          dsimp only at hhead
          rw [head_of_append "Invalid time format: " _ rfl] at hhead
          exact absurd hhead (by decide)
        · cases h
      · cases h
  · intro l
    unfold validateEvents validateEventsRun
    exact validate_enumFrom l 0
  · intro l
    unfold validateEvents validateEventsRun
    show ((mapReadAux recordMsg 0 l).1.filterMap id) = [] ↔ _
    rw [validate_enumFrom l 0]
    rw [List.filterMap_eq_nil_iff]
    have h1 : (∀ p ∈ List.enumFrom 0 l, recordMsg p.1 p.2 = none) ↔
        ∀ p ∈ List.enumFrom 0 l, recordIssues p.2 = [] := by
      constructor <;> intro h p hp
      · exact (recordMsg_eq_none p.1 p.2).mp (h p hp)
      · exact (recordMsg_eq_none p.1 p.2).mpr (h p hp)
    rw [h1, enumFrom_mem_iff (fun e => recordIssues e = []) 0 l]

theorem daysInMonth_le_31 (y m : Nat) : daysInMonth y m ≤ 31 := by
  unfold daysInMonth
  split <;> first | omega | (split <;> omega)

theorem dateKey_inj {d1 d2 : Date} (h1 : validDateB d1 = true) (h2 : validDateB d2 = true)
    (h : dateKey d1 = dateKey d2) : d1 = d2 := by
  obtain ⟨y1, m1, dd1⟩ := d1
  obtain ⟨y2, m2, dd2⟩ := d2
  obtain ⟨a1, a2, a3, a4, a5, a6⟩ := validDateB_fields h1
  obtain ⟨b1, b2, b3, b4, b5, b6⟩ := validDateB_fields h2
  have c1 := daysInMonth_le_31 y1 m1
  have c2 := daysInMonth_le_31 y2 m2
  simp only at a1 a2 a3 a4 a5 a6 b1 b2 b3 b4 b5 b6
  unfold dateKey at h
  simp only at h
  simp only [Date.mk.injEq]
  omega

theorem statsDateOf_valid {e : EvRec} {d : Date} (h : statsDateOf e = some d) :
    validDateB d = true := by
  unfold statsDateOf at h
  split at h
  · exact parseISODate_valid h
  · cases h

theorem dateLeB_total (a b : Date) :
    decide (dateKey a ≤ dateKey b) = true ∨ decide (dateKey b ≤ dateKey a) = true := by
  simp only [decide_eq_true_eq]
  exact Nat.le_total _ _

theorem dateLeB_trans (a b c : Date) (h1 : decide (dateKey a ≤ dateKey b) = true)
    (h2 : decide (dateKey b ≤ dateKey c) = true) : decide (dateKey a ≤ dateKey c) = true := by
  simp only [decide_eq_true_eq] at h1 h2 ⊢
  omega

theorem getIcsStats_spec (l : List EvRec) :
    (getIcsStats l).earliest = (sortDates (l.filterMap statsDateOf)).head?.map fmtISO
    ∧ (getIcsStats l).latest = (sortDates (l.filterMap statsDateOf)).getLast?.map fmtISO
    ∧ (getIcsStats l).totalEvents = l.length
    ∧ (getIcsStats l).eventsWithTime + (getIcsStats l).allDayEvents = l.length := by
  unfold getIcsStats getIcsStatsRun
  dsimp only
  rw [mapReadAux_fst_const
    (fun e => (truthy (getV e "dtstart_time"), truthy (getV e "location"),
      truthy (getV e "url"), statsDateOf e)) 0 l]
  refine ⟨?_, ?_, ?_, ?_⟩
  · dsimp only
    rw [List.filterMap_map]
    rfl
  · dsimp only
    rw [List.filterMap_map]
    rfl
  · dsimp only
    rw [List.length_map]
  · dsimp only
    have h := length_filter_add_length_filter_not
      (fun q : Bool × Bool × Bool × Option Date => q.1)
      (l.map fun e => (truthy (getV e "dtstart_time"), truthy (getV e "location"),
        truthy (getV e "url"), statsDateOf e))
    rw [List.length_map] at h
    exact h

theorem sortDates_min_max {dates : List Date} {dmin : Date}
    (hmin : (sortDates dates).head? = some dmin) :
    dmin ∈ dates ∧ ∀ d ∈ dates, dateKey dmin ≤ dateKey d := by
  have hperm : (sortDates dates).Perm dates :=
    insertionSortB_perm (fun a b => decide (dateKey a ≤ dateKey b)) dates
  have hpw : (sortDates dates).Pairwise (fun x y => decide (dateKey x ≤ dateKey y) = true) :=
    pairwise_insertionSortB (fun a b => decide (dateKey a ≤ dateKey b))
      dateLeB_total dateLeB_trans dates
  have hmem : dmin ∈ dates := hperm.mem_iff.mp (by
    cases hs : sortDates dates with
    | nil => rw [hs] at hmin; cases hmin
    | cons a t =>
      rw [hs] at hmin
      cases hmin
      exact List.mem_cons_self ..)
  refine ⟨hmem, ?_⟩
  intro d hd
  have hd2 : d ∈ sortDates dates := hperm.mem_iff.mpr hd
  rcases head_min_of_pairwise hpw hmin d hd2 with rfl | hle
  · exact Nat.le_refl _
  · simpa using hle

theorem sortDates_max {dates : List Date} {dmax : Date}
    (hmax : (sortDates dates).getLast? = some dmax) :
    dmax ∈ dates ∧ ∀ d ∈ dates, dateKey d ≤ dateKey dmax := by
  have hperm : (sortDates dates).Perm dates :=
    insertionSortB_perm (fun a b => decide (dateKey a ≤ dateKey b)) dates
  have hpw : (sortDates dates).Pairwise (fun x y => decide (dateKey x ≤ dateKey y) = true) :=
    pairwise_insertionSortB (fun a b => decide (dateKey a ≤ dateKey b))
      dateLeB_total dateLeB_trans dates
  have hmem : dmax ∈ dates := by
    refine hperm.mem_iff.mp ?_
    cases hs : sortDates dates with
    | nil => rw [hs] at hmax; cases hmax
    | cons a t =>
      rw [hs] at hmax
      have hne : a :: t ≠ [] := by simp
      rw [List.getLast?_eq_getLast _ hne] at hmax
      cases hmax
      exact List.getLast_mem hne
  refine ⟨hmem, ?_⟩
  intro d hd
  have hd2 : d ∈ sortDates dates := hperm.mem_iff.mpr hd
  rcases getLast_max_of_pairwise hpw hmax d hd2 with rfl | hle
  · exact Nat.le_refl _
  · simpa using hle

theorem sortDates_nonempty {dates : List Date} (h : dates ≠ []) :
    ∃ dmin dmax, (sortDates dates).head? = some dmin ∧ (sortDates dates).getLast? = some dmax := by
  have hperm : (sortDates dates).Perm dates :=
    insertionSortB_perm (fun a b => decide (dateKey a ≤ dateKey b)) dates
  have hne : sortDates dates ≠ [] := by
    intro hs
    exact h (List.eq_nil_of_length_eq_zero (by rw [← hperm.length_eq, hs]; rfl))
  cases hs : sortDates dates with
  | nil => exact absurd hs hne
  | cons a t =>
    refine ⟨a, (a :: t).getLast (by simp), rfl, ?_⟩
    rw [List.getLast?_eq_getLast _ (by simp)]

/-- Claim C7, witness: a record with an empty-string summary is flagged as
missing its summary. -/
theorem claim_C7_witness :
    "Missing summary/title" ∈ recordIssues [("summary", Val.str "")] :=
  claim_C7.1 [("summary", Val.str "")] (Or.inr (by decide))

/-- Claim C6.  The statistics summary satisfies
`eventsWithTime + allDayEvents = totalEvents = length of the input` (every
record is classified into exactly one class by the presence of a start time);
the earliest/latest pair is nothing exactly when no record has a
syntactically valid start date (a truthy `dtstart_date` accepted by
`strptime("%Y-%m-%d")`); otherwise earliest and latest render the minimum and
maximum collected start dates; and both ends of the range are independent of
the input order. -/
theorem claim_C6 :
    (∀ l : List EvRec,
      (getIcsStats l).eventsWithTime + (getIcsStats l).allDayEvents = (getIcsStats l).totalEvents
      ∧ (getIcsStats l).totalEvents = l.length)
    ∧ (∀ l : List EvRec,
        ((getIcsStats l).earliest = none ↔ ∀ e ∈ l, statsDateOf e = none)
        ∧ ((getIcsStats l).latest = none ↔ ∀ e ∈ l, statsDateOf e = none))
    ∧ (∀ (l : List EvRec) (d0 : Date), d0 ∈ l.filterMap statsDateOf →
        ∃ dmin dmax, (getIcsStats l).earliest = some (fmtISO dmin)
          ∧ (getIcsStats l).latest = some (fmtISO dmax)
          ∧ dmin ∈ l.filterMap statsDateOf ∧ dmax ∈ l.filterMap statsDateOf
          ∧ ∀ d ∈ l.filterMap statsDateOf, dateKey dmin ≤ dateKey d ∧ dateKey d ≤ dateKey dmax)
    ∧ (∀ l1 l2 : List EvRec, l1.Perm l2 →
        (getIcsStats l1).earliest = (getIcsStats l2).earliest
        ∧ (getIcsStats l1).latest = (getIcsStats l2).latest) := by
  have hnil : ∀ l : List EvRec, (sortDates (l.filterMap statsDateOf)).head? = none ↔
      ∀ e ∈ l, statsDateOf e = none := by
    intro l
    have hperm : (sortDates (l.filterMap statsDateOf)).Perm (l.filterMap statsDateOf) :=
      insertionSortB_perm _ _
    rw [List.head?_eq_none_iff]
    constructor
    · intro h
      rw [← List.filterMap_eq_nil_iff]
      exact List.eq_nil_of_length_eq_zero (by rw [← hperm.length_eq, h]; rfl)
    · intro h
      have : l.filterMap statsDateOf = [] := List.filterMap_eq_nil_iff.mpr h
      exact List.eq_nil_of_length_eq_zero (by rw [hperm.length_eq, this]; rfl)
  have hnil2 : ∀ l : List EvRec, (sortDates (l.filterMap statsDateOf)).getLast? = none ↔
      ∀ e ∈ l, statsDateOf e = none := by
    intro l
    rw [← hnil l]
    cases h : sortDates (l.filterMap statsDateOf) with
    | nil => simp
    | cons a t =>
      rw [List.getLast?_eq_getLast _ (by simp)]
      simp
  have hrange : ∀ (l : List EvRec) (d0 : Date), d0 ∈ l.filterMap statsDateOf →
      ∃ dmin dmax, (getIcsStats l).earliest = some (fmtISO dmin)
        ∧ (getIcsStats l).latest = some (fmtISO dmax)
        ∧ dmin ∈ l.filterMap statsDateOf ∧ dmax ∈ l.filterMap statsDateOf
        ∧ ∀ d ∈ l.filterMap statsDateOf, dateKey dmin ≤ dateKey d ∧ dateKey d ≤ dateKey dmax := by
    intro l d0 hd0
    obtain ⟨hE, hL, -, -⟩ := getIcsStats_spec l
    obtain ⟨dmin, dmax, hmin, hmax⟩ :=
      @sortDates_nonempty (l.filterMap statsDateOf) (List.ne_nil_of_mem hd0)
    obtain ⟨hminMem, hminLe⟩ := sortDates_min_max hmin
    obtain ⟨hmaxMem, hmaxLe⟩ := sortDates_max hmax
    refine ⟨dmin, dmax, ?_, ?_, hminMem, hmaxMem, fun d hd => ⟨hminLe d hd, hmaxLe d hd⟩⟩
    · rw [hE, hmin]; rfl
    · rw [hL, hmax]; rfl
  refine ⟨?_, ?_, hrange, ?_⟩
  · intro l
    obtain ⟨-, -, hT, hS⟩ := getIcsStats_spec l
    exact ⟨by rw [hS, hT], hT⟩
  · intro l
    obtain ⟨hE, hL, -, -⟩ := getIcsStats_spec l
    constructor
    · rw [hE, Option.map_eq_none', hnil l]
    · rw [hL, Option.map_eq_none', hnil2 l]
  · intro l1 l2 hp
    have hdp : (l1.filterMap statsDateOf).Perm (l2.filterMap statsDateOf) :=
      hp.filterMap statsDateOf
    by_cases hnilc : ∀ e ∈ l1, statsDateOf e = none
    · have hnilc2 : ∀ e ∈ l2, statsDateOf e = none := by
        intro e he
        exact hnilc e (hp.mem_iff.mpr he)
      obtain ⟨hE1, hL1, -, -⟩ := getIcsStats_spec l1
      obtain ⟨hE2, hL2, -, -⟩ := getIcsStats_spec l2
      rw [hE1, hE2, hL1, hL2]
      rw [(hnil l1).mpr hnilc, (hnil l2).mpr hnilc2]
      have h1 := (hnil2 l1).mpr hnilc
      have h2 := (hnil2 l2).mpr hnilc2
      rw [h1, h2]
      exact ⟨rfl, rfl⟩
    · push_neg at hnilc
      obtain ⟨e0, he0, hs0⟩ := hnilc
      have hd0 : ∃ d0, d0 ∈ l1.filterMap statsDateOf := by
        cases hsd : statsDateOf e0 with
        | none => exact absurd hsd hs0
        | some d0 => exact ⟨d0, List.mem_filterMap.mpr ⟨e0, he0, hsd⟩⟩
      obtain ⟨d0, hd0⟩ := hd0
      obtain ⟨dmin1, dmax1, hE1, hL1, hm1, hx1, hb1⟩ := hrange l1 d0 hd0
      obtain ⟨dmin2, dmax2, hE2, hL2, hm2, hx2, hb2⟩ := hrange l2 d0 (hdp.mem_iff.mp hd0)
      have hv : ∀ d ∈ l1.filterMap statsDateOf, validDateB d = true := by
        intro d hd
        obtain ⟨e, -, hsd⟩ := List.mem_filterMap.mp hd
        exact statsDateOf_valid hsd
      have hminEq : dmin1 = dmin2 := by
        refine dateKey_inj (hv dmin1 hm1) (hv _ (hdp.mem_iff.mpr hm2)) ?_
        have h12 := (hb1 dmin2 (hdp.mem_iff.mpr hm2)).1
        have h21 := (hb2 dmin1 (hdp.mem_iff.mp hm1)).1
        omega
      have hmaxEq : dmax1 = dmax2 := by
        refine dateKey_inj (hv dmax1 hx1) (hv _ (hdp.mem_iff.mpr hx2)) ?_
        have h12 := (hb1 dmax2 (hdp.mem_iff.mpr hx2)).2
        have h21 := (hb2 dmax1 (hdp.mem_iff.mp hx1)).2
        omega
      rw [hE1, hE2, hL1, hL2, hminEq, hmaxEq]
      exact ⟨rfl, rfl⟩

/-- Claim C6, witness: a two-record list with start dates 2024-12-22 and
2024-12-20 has a date range spanning exactly those dates. -/
theorem claim_C6_witness :
    ∃ dmin dmax,
      (getIcsStats [[("dtstart_date", Val.str "2024-12-22")],
        [("dtstart_date", Val.str "2024-12-20")]]).earliest = some (fmtISO dmin)
      ∧ (getIcsStats [[("dtstart_date", Val.str "2024-12-22")],
          [("dtstart_date", Val.str "2024-12-20")]]).latest = some (fmtISO dmax)
      ∧ dmin ∈ ([[("dtstart_date", Val.str "2024-12-22")],
          [("dtstart_date", Val.str "2024-12-20")]].filterMap statsDateOf)
      ∧ dmax ∈ ([[("dtstart_date", Val.str "2024-12-22")],
          [("dtstart_date", Val.str "2024-12-20")]].filterMap statsDateOf)
      ∧ ∀ d ∈ ([[("dtstart_date", Val.str "2024-12-22")],
          [("dtstart_date", Val.str "2024-12-20")]].filterMap statsDateOf),
          dateKey dmin ≤ dateKey d ∧ dateKey d ≤ dateKey dmax :=
  claim_C6.2.2.1 [[("dtstart_date", Val.str "2024-12-22")],
    [("dtstart_date", Val.str "2024-12-20")]] ⟨2024, 12, 22⟩ (by decide)

theorem findTimePatterns_of_lower_tbc (s : String) (h : pyLower s = "tbc") :
    findTimePatterns (preprocessTime s) = [] := by
  have hlow : lowerL s.data = ['t', 'b', 'c'] := congrArg String.data h
  simp only [preprocessTime]
  rw [hlow]
  decide

/-- Claim C4.  For a time string with more than one candidate token,
`normalize_time` returns the lexicographically smallest surviving zero-padded
`HH:MM` string among the candidates parsed against the shared meridian (the
earliest time, not the positionally first); a token carrying its own `am`/`pm`
marker parses the same under any shared meridian (its own marker overrides);
the shared meridian itself is determined by scanning tokens in reverse order
for the first explicit marker; and the two worked examples of the claim hold:
`"2:30pm & 4:00pm"` gives `"14:30"` and `"3pm and 5pm"` gives `"15:00"`. -/
theorem claim_C4 :
    (∀ s : String,
      1 < (findTimePatterns (preprocessTime s)).length →
      ∀ res ∈ ((findTimePatterns (preprocessTime s)).filterMap fun tp =>
          parseSingleTime tp (lastMeridianOf (findTimePatterns (preprocessTime s)))),
        ∃ m, (normalizeTime s).1 = some m
          ∧ m ∈ ((findTimePatterns (preprocessTime s)).filterMap fun tp =>
              parseSingleTime tp (lastMeridianOf (findTimePatterns (preprocessTime s))))
          ∧ ∀ x ∈ ((findTimePatterns (preprocessTime s)).filterMap fun tp =>
              parseSingleTime tp (lastMeridianOf (findTimePatterns (preprocessTime s)))),
              strLeB m x = true)
    ∧ (∀ (tok : List Char) (sh1 sh2 : Option Meridian),
        (containsSub ['p', 'm'] (stripL (lowerL tok)) = true ∨
          containsSub ['a', 'm'] (stripL (lowerL tok)) = true) →
        parseSingleTime tok sh1 = parseSingleTime tok sh2)
    ∧ (∀ (tps : List (List Char)) (t : List Char),
        lastMeridianOf (tps ++ [t]) =
          if containsSub ['a', 'm'] t = true then some Meridian.am
          else if containsSub ['p', 'm'] t = true then some Meridian.pm
          else lastMeridianOf tps)
    ∧ normalizeTime "2:30pm & 4:00pm" = (some "14:30", [])
    ∧ normalizeTime "3pm and 5pm" = (some "15:00", []) := by
  refine ⟨?_, ?_, ?_, by decide, by decide⟩
  · intro s hlen res hres
    have hne : findTimePatterns (preprocessTime s) ≠ [] := by
      intro h
      rw [h] at hlen
      simp at hlen
    have hs : s ≠ "" := by
      intro h
      subst h
      exact hne (by decide)
    have htbc : pyLower s ≠ "tbc" := fun h => hne (findTimePatterns_of_lower_tbc s h)
    have hcond : ¬ (s = "" ∨ pyLower s = "tbc") := by
      rintro (h | h)
      · exact hs h
      · exact htbc h
    have hnorm : (normalizeTime s).1 =
        (sortStrings ((findTimePatterns (preprocessTime s)).filterMap fun tp =>
          parseSingleTime tp (lastMeridianOf (findTimePatterns (preprocessTime s))))).head? := by
      simp only [normalizeTime]
      rw [if_neg hcond, if_neg hne]
    have hconvne : ((findTimePatterns (preprocessTime s)).filterMap fun tp =>
        parseSingleTime tp (lastMeridianOf (findTimePatterns (preprocessTime s)))) ≠ [] :=
      List.ne_nil_of_mem hres
    have hperm : (sortStrings ((findTimePatterns (preprocessTime s)).filterMap fun tp =>
        parseSingleTime tp (lastMeridianOf (findTimePatterns (preprocessTime s))))).Perm
          ((findTimePatterns (preprocessTime s)).filterMap fun tp =>
            parseSingleTime tp (lastMeridianOf (findTimePatterns (preprocessTime s)))) :=
      insertionSortB_perm _ _
    have hpw : (sortStrings ((findTimePatterns (preprocessTime s)).filterMap fun tp =>
        parseSingleTime tp (lastMeridianOf (findTimePatterns (preprocessTime s))))).Pairwise
          (fun a b => strLeB a b = true) :=
      pairwise_insertionSortB strLeB strLeB_total strLeB_trans _
    have hsne : sortStrings ((findTimePatterns (preprocessTime s)).filterMap fun tp =>
        parseSingleTime tp (lastMeridianOf (findTimePatterns (preprocessTime s)))) ≠ [] := by
      intro h
      exact hconvne (List.eq_nil_of_length_eq_zero (by rw [← hperm.length_eq, h]; rfl))
    obtain ⟨m, t, hcons⟩ := List.exists_cons_of_ne_nil hsne
    refine ⟨m, ?_, ?_, ?_⟩
    · rw [hnorm, hcons]
      rfl
    · exact hperm.mem_iff.mp (hcons ▸ List.mem_cons_self ..)
    · intro x hx
      rcases head_min_of_pairwise hpw (by rw [hcons]; rfl) x (hperm.mem_iff.mpr hx) with rfl | hle
      · rcases strLeB_total x x with h | h <;> exact h
      · exact hle
  · intro tok sh1 sh2 h
    by_cases hpm : containsSub ['p', 'm'] (stripL (lowerL tok)) = true
    · simp only [parseSingleTime]
      rw [if_pos hpm, if_pos hpm]
    · have ham : containsSub ['a', 'm'] (stripL (lowerL tok)) = true := by
        rcases h with h | h
        · exact absurd h hpm
        · exact h
      simp only [parseSingleTime]
      rw [if_neg hpm, if_neg hpm, if_pos ham, if_pos ham]
  · intro tps t
    unfold lastMeridianOf
    rw [List.reverse_append, List.reverse_singleton, List.singleton_append]
    rw [lastMerScan]

/-- Claim C4, witness: `"15:30 & 17:45"` has two candidate tokens and
normalizes to the smaller one. -/
theorem claim_C4_witness :
    ∃ m, (normalizeTime "15:30 & 17:45").1 = some m
      ∧ m ∈ ((findTimePatterns (preprocessTime "15:30 & 17:45")).filterMap fun tp =>
          parseSingleTime tp (lastMeridianOf (findTimePatterns (preprocessTime "15:30 & 17:45"))))
      ∧ ∀ x ∈ ((findTimePatterns (preprocessTime "15:30 & 17:45")).filterMap fun tp =>
          parseSingleTime tp (lastMeridianOf (findTimePatterns (preprocessTime "15:30 & 17:45")))),
          strLeB m x = true :=
  claim_C4.1 "15:30 & 17:45" (by decide) "15:30" (by decide)

/-- Claim C8, counterexample.  The claim says the no-candidates diagnostic
contains the original input text; but the interpolated string is the variable
after the preprocessing substitutions, so `normalize_time("MIDNIGHT")` logs
`'midnight'` (lowercased) and the message does not contain the original
`"MIDNIGHT"`. -/
theorem claim_C8_counterexample :
    normalizeTime "MIDNIGHT" =
      (none, ["No valid time patterns found in: \x27midnight\x27"]) ∧
    strContains "No valid time patterns found in: \x27midnight\x27" "MIDNIGHT" = false := by
  constructor
  · decide
  · decide

/-- Claim C8, amended.  `normalize_time` returns nothing without logging when
the input is empty or (case-insensitively) the literal `tbc`; when the input
yields no candidate time token it appends exactly one diagnostic of the form
`No valid time patterns found in: '<text>'` where `<text>` is the input after
the preprocessing substitutions (lowercasing, `noon`, `(tbc)`, `.` and
` and ` rewrites) — not necessarily the original text; and whenever at least
one candidate token exists nothing is logged, so candidates with out-of-range
values or failed parsing are dropped silently. -/
theorem claim_C8 :
    normalizeTime "" = (none, [])
    ∧ (∀ s : String, pyLower s = "tbc" → normalizeTime s = (none, []))
    ∧ (∀ s : String, s ≠ "" → pyLower s ≠ "tbc" →
        findTimePatterns (preprocessTime s) = [] →
        normalizeTime s = (none,
          ["No valid time patterns found in: \x27" ++ String.mk (preprocessTime s) ++ "\x27"]))
    ∧ (∀ s : String, findTimePatterns (preprocessTime s) ≠ [] → (normalizeTime s).2 = []) := by
  refine ⟨by decide, ?_, ?_, ?_⟩
  · intro s h
    simp only [normalizeTime]
    rw [if_pos (Or.inr h)]
  · intro s hs htbc hfp
    have hcond : ¬ (s = "" ∨ pyLower s = "tbc") := by
      rintro (h | h)
      · exact hs h
      · exact htbc h
    simp only [normalizeTime]
    rw [if_neg hcond, if_pos hfp]
  · intro s h
    have hs : s ≠ "" := by
      intro hx
      subst hx
      exact h (by decide)
    have htbc : pyLower s ≠ "tbc" := fun hx => h (findTimePatterns_of_lower_tbc s hx)
    have hcond : ¬ (s = "" ∨ pyLower s = "tbc") := by
      rintro (hx | hx)
      · exact hs hx
      · exact htbc hx
    simp only [normalizeTime]
    rw [if_neg hcond, if_neg h]

/-- Claim C8, witness: the literal `"TBC"` is treated as no time and logs
nothing. -/
theorem claim_C8_witness : normalizeTime "TBC" = (none, []) :=
  claim_C8.2.1 "TBC" (by decide)

/-- Claim C2.  For every rendered event component: when an explicit end date
and end time are both present (truthy), the combined `DTEND` timestamp is
emitted; otherwise, when a start date is present and no end date is present,
a `DTEND` exactly 2 hours (120 minutes, in the day-number measure) after the
combined start timestamp is emitted when a start time is present, and an
all-day `DTEND;VALUE=DATE` for the calendar day following the start date
(day number exactly one larger) when no start time is present.  The parse
hypotheses express that the start fields are well-formed, as the canonical
record invariant guarantees. -/
theorem claim_C2 :
    ∀ (e : EvRec) (uid now : String) (lines : List String),
      createEventComponent uid now e = .ok lines →
      (truthy (getV e "dtend_date") = true → truthy (getV e "dtend_time") = true →
        ("DTEND:" ++ formatDateTime (strOf (getV e "dtend_date"))
          (strOf (getV e "dtend_time"))) ∈ lines)
      ∧ (truthy (getV e "dtstart_date") = true → truthy (getV e "dtend_date") = false →
          truthy (getV e "dtstart_time") = true →
          ∀ (D : Date) (h mi : Nat),
            parseDateTimeFmt (strOf (getV e "dtstart_date"))
              (strOf (getV e "dtstart_time")) = some (D, h, mi) →
            ∃ D2 h2 m2, addHoursDT D h mi 2 = some (D2, h2, m2)
              ∧ ("DTEND:" ++ fmtBasic D2 h2 m2) ∈ lines
              ∧ minutesOfDT D2 h2 m2 = minutesOfDT D h mi + 2 * 60)
      ∧ (truthy (getV e "dtstart_date") = true → truthy (getV e "dtend_date") = false →
          truthy (getV e "dtstart_time") = false →
          ∀ D : Date, parseISODate (strOf (getV e "dtstart_date")) = some D →
          ∃ D2, nextDate D = some D2
            ∧ ("DTEND;VALUE=DATE:" ++ pyReplace (fmtISO D2) "-" "") ∈ lines
            ∧ dayNumber D2 = dayNumber D + 1) := by
  intro e uid now lines hok
  unfold createEventComponent at hok
  cases hend : endLines e now with
  | error u => rw [hend] at hok; cases hok
  | ok el =>
    rw [hend] at hok
    cases hok
    have hmem : ∀ x ∈ el,
        x ∈ ["BEGIN:VEVENT", "UID:" ++ uid, "DTSTAMP:" ++ now]
          ++ startLines e ++ el
          ++ textLine "SUMMARY:" e "summary"
          ++ textLine "DESCRIPTION:" e "description"
          ++ textLine "LOCATION:" e "location"
          ++ urlLines e ++ catLines e ++ ["END:VEVENT"] := by
      intro x hx
      simp only [List.cons_append, List.nil_append, List.mem_cons, List.mem_append]
      tauto
    refine ⟨?_, ?_, ?_⟩
    · intro h1 h2
      unfold endLines at hend
      rw [if_pos (show (truthy (getV e "dtend_date") && truthy (getV e "dtend_time")) = true by
        rw [h1, h2]; rfl)] at hend
      cases hend
      exact hmem _ (List.mem_singleton.mpr rfl)
    · intro h1 h2 h3 D h mi hp
      unfold endLines at hend
      rw [if_neg (show ¬ (truthy (getV e "dtend_date") && truthy (getV e "dtend_time")) = true by
          rw [h2]; simp),
        if_pos (show (truthy (getV e "dtstart_date") && !truthy (getV e "dtend_date")) = true by
          rw [h1, h2]; rfl),
        if_pos h3] at hend
      unfold addDuration at hend
      rw [hp] at hend
      dsimp only at hend
      cases hadd : addHoursDT D h mi 2 with
      | none =>
        rw [hadd] at hend
        exact absurd hend (by simp [Except.map])
      | some t3 =>
        obtain ⟨D2, hh2, mm2⟩ := t3
        rw [hadd] at hend
        dsimp only [Except.map] at hend
        cases hend
        refine ⟨D2, hh2, mm2, rfl, hmem _ (List.mem_singleton.mpr rfl), ?_⟩
        exact addHoursDT_minutes (parseDateTimeFmt_valid hp) hadd
    · intro h1 h2 h3 D hp
      unfold endLines at hend
      rw [if_neg (show ¬ (truthy (getV e "dtend_date") && truthy (getV e "dtend_time")) = true by
          rw [h2]; simp),
        if_pos (show (truthy (getV e "dtstart_date") && !truthy (getV e "dtend_date")) = true by
          rw [h1, h2]; rfl),
        if_neg (show ¬ truthy (getV e "dtstart_time") = true by rw [h3]; simp)] at hend
      unfold addDay at hend
      rw [hp] at hend
      dsimp only at hend
      cases hnd : nextDate D with
      | none =>
        rw [hnd] at hend
        exact absurd hend (by simp [Except.map])
      | some D2 =>
        rw [hnd] at hend
        dsimp only [Except.map] at hend
        cases hend
        refine ⟨D2, rfl, hmem _ (List.mem_singleton.mpr rfl), ?_⟩
        exact dayNumber_nextDate (parseISODate_valid hp) hnd

/-- Claim C2, witness: the event with start date 2024-12-20 and start time
23:30 and no explicit end renders a `DTEND` two hours later, crossing
midnight into 2024-12-21 01:30. -/
theorem claim_C2_witness :
    ∃ D2 h2 m2, addHoursDT ⟨2024, 12, 20⟩ 23 30 2 = some (D2, h2, m2)
      ∧ ("DTEND:" ++ fmtBasic D2 h2 m2) ∈
          ["BEGIN:VEVENT", "UID:u", "DTSTAMP:n", "DTSTART:20241220T233000Z",
            "DTEND:20241221T013000Z", "END:VEVENT"]
      ∧ minutesOfDT D2 h2 m2 = minutesOfDT ⟨2024, 12, 20⟩ 23 30 + 2 * 60 :=
  (claim_C2 [("dtstart_date", Val.str "2024-12-20"), ("dtstart_time", Val.str "23:30")]
      "u" "n" _ rfl).2.1 (by decide) (by decide) (by decide) ⟨2024, 12, 20⟩ 23 30 (by decide)

end ICSUtils
